import Mathlib

/-!
Verification of the ADD abstraction operators of `cudd/cuddAddAbs.c`
(the storm-patched CUDD 3.0.0 excerpt).

The diagrams are embedded shallowly: a `DD` is a reduced, ordered decision
tree; under hash-consing two live CUDD nodes are the same pointer exactly
when the corresponding trees are equal, so C pointer comparison becomes
structural equality here.  Edges may carry a complement ("negate") bit on
the boolean side; CUDD keeps every then-edge regular, so a node stores the
complement bit of its else-edge only (`ec`), and a top-level reference is a
`DdPtr`, a node together with its complement bit.  ADDs never use
complement bits.  Variable indices coincide with order positions (the
identity permutation), and a terminal sits below every variable, matching
`cuddI`'s treatment of `CUDD_CONST_INDEX`.

Functions named after C functions of `cuddAddAbs.c` are transcribed from
that file.  The collaborators that the excerpt consumes (`cuddAddApplyRecur`
with its leaf operators, the `<=`/`>=` comparison producing a BDD, the
boolean gating ite, and the unique-table constructor `cuddUniqueInter`) are
not part of the excerpt and are modelled from the spec, as indicated in
their doc comments.
-/

set_option linter.unusedVariables false
set_option linter.unnecessarySeqFocus false

/-- A decision-diagram node: a terminal holding a numeric constant, or an
internal node with a variable index, a then-child (regular by the canonical
complement-edge discipline), the complement bit of its else-edge, and an
else-child. -/
inductive DD where
  | leaf (v : Int)
  | node (i : Nat) (t : DD) (ec : Bool) (e : DD)
deriving DecidableEq, Repr

/-- A reference to a node: the node together with the complement bit of the
referencing edge (`Cudd_IsComplement` / `Cudd_Regular` decompose it). -/
structure DdPtr where
  c : Bool
  n : DD
deriving DecidableEq, Repr

/-- `cuddIsConstant`: the node is a terminal. -/
def isConst : DD → Bool
  | .leaf _ => true
  | .node _ _ _ _ => false

/-- `cuddI(manager, f->index) > cuddI(manager, x)`: the order position of
`f`'s top variable is strictly later than that of variable `x`; terminals
(index `CUDD_CONST_INDEX`) sit later than every variable. -/
def levelGt : DD → Nat → Bool
  | .leaf _, _ => true
  | .node i _ _ _, j => j < i

/-- `Cudd_Not`: flip the complement bit of a reference. -/
def Cudd_Not (p : DdPtr) : DdPtr := ⟨!p.c, p.n⟩

/-- `DD_ONE`, viewed as a boolean reference (the regular true terminal). -/
def oneBddP : DdPtr := ⟨false, .leaf 1⟩

/-- `Cudd_Not(DD_ONE)`: the boolean false constant (complemented one). -/
def logicalZeroP : DdPtr := ⟨true, .leaf 1⟩

/-- Modelled from the spec: the Node Store's
`canonicalize(var, then, else) -> Node` (§4.1) — if the children coincide
the common child is returned (no redundant test), otherwise the one
canonical node for the triple.  This is `cuddUniqueInter` of `cuddTable.c`
(not part of the excerpt) for a regular then-edge and an arbitrary
else-reference. -/
def cuddUniqueInter (i : Nat) (t : DD) (e : DdPtr) : DD :=
  if e = ⟨false, t⟩ then t else .node i t e.c e.n

/-- The spec's `canonicalize` specialised to plain (complement-free) ADD
children, the form every ADD operator uses. -/
def canonicalize (i : Nat) (t e : DD) : DD :=
  if t = e then t else DD.node i t false e

/-- Modelled from the spec: the peer combinator `combine(op, a, b)` (§6), a
cached recursive operator applying a leaf operation pointwise with the
usual canonicalization discipline.  This is `cuddAddApplyRecur` of
`cuddAddApply.c` (not part of the excerpt); the cache it keeps is
transparent (a hit must equal the recomputation), so it is not threaded
here. -/
def cuddAddApplyRecur (op : Int → Int → Int) : DD → DD → DD
  | .leaf a, .leaf b => .leaf (op a b)
  | .leaf a, .node j u uc v =>
      canonicalize j (cuddAddApplyRecur op (.leaf a) u) (cuddAddApplyRecur op (.leaf a) v)
  | .node i t tc e, .leaf b =>
      canonicalize i (cuddAddApplyRecur op t (.leaf b)) (cuddAddApplyRecur op e (.leaf b))
  | .node i t tc e, .node j u uc v =>
      if i = j then
        canonicalize i (cuddAddApplyRecur op t u) (cuddAddApplyRecur op e v)
      else if i < j then
        canonicalize i (cuddAddApplyRecur op t (.node j u uc v))
          (cuddAddApplyRecur op e (.node j u uc v))
      else
        canonicalize j (cuddAddApplyRecur op (.node i t tc e) u)
          (cuddAddApplyRecur op (.node i t tc e) v)
termination_by f g => sizeOf f + sizeOf g

/-- Modelled from the spec: the `+` leaf operator (`Cudd_addPlus`). -/
def Cudd_addPlus (a b : Int) : Int := a + b

/-- Modelled from the spec: the `×` leaf operator (`Cudd_addTimes`). -/
def Cudd_addTimes (a b : Int) : Int := a * b

/-- Modelled from the spec: the boolean-or leaf operator on 0-1 ADDs
(`Cudd_addOr`). -/
def Cudd_addOr (a b : Int) : Int := if a ≠ 0 ∨ b ≠ 0 then 1 else 0

/-- Modelled from the spec: the min leaf operator (`Cudd_addMinimum`). -/
def Cudd_addMinimum (a b : Int) : Int := min a b

/-- Modelled from the spec: the max leaf operator (`Cudd_addMaximum`). -/
def Cudd_addMaximum (a b : Int) : Int := max a b

/-- Modelled from the spec: the storm leaf operator
`Cudd_addMinimumExcept0`, the minimum that disregards a zero operand (only
its name and use as a "min-variant" are documented; a zero operand yields
the other operand, otherwise the plain minimum). -/
def Cudd_addMinimumExcept0 (a b : Int) : Int :=
  if a = 0 then b else if b = 0 then a else min a b

/-- `cuddAddExistAbstractRecur` (cuddAddAbs.c:408-499): recursive step of
existential abstraction; sums the cofactors over each cube variable.  The
operation cache consulted there is transparent, so it is not threaded. -/
def cuddAddExistAbstractRecur : DD → DD → DD
  | f, cube =>
    if f = DD.leaf 0 ∨ isConst cube then f
    else match cube with
    | .leaf _ => f
    | .node cj ct cec ce =>
      if levelGt f cj then
        let res1 := cuddAddExistAbstractRecur f ct
        cuddAddApplyRecur Cudd_addPlus res1 res1
      else match f with
      | .leaf v => .leaf v
      | .node fi ft fec fe =>
        if fi = cj then
          cuddAddApplyRecur Cudd_addPlus (cuddAddExistAbstractRecur ft ct)
            (cuddAddExistAbstractRecur fe ct)
        else
          let res1 := cuddAddExistAbstractRecur ft (.node cj ct cec ce)
          let res2 := cuddAddExistAbstractRecur fe (.node cj ct cec ce)
          if res1 = res2 then res1 else cuddUniqueInter fi res1 ⟨false, res2⟩
termination_by f cube => sizeOf f + sizeOf cube
decreasing_by all_goals (simp_wf; try omega)

/-- `cuddAddUnivAbstractRecur` (cuddAddAbs.c:511-605): recursive step of
universal abstraction; multiplies the cofactors over each cube variable.
The `(leaf, leaf)` case with a cube terminal other than one is unreachable
behind the validator (the C code would read the children of a terminal
there). -/
def cuddAddUnivAbstractRecur : DD → DD → DD
  | f, cube =>
    if f = DD.leaf 0 ∨ f = DD.leaf 1 ∨ cube = DD.leaf 1 then f
    else match f, cube with
    | .leaf v, .leaf _ => .leaf v
    | f, .node cj ct cec ce =>
      if levelGt f cj then
        let res1 := cuddAddUnivAbstractRecur f ct
        cuddAddApplyRecur Cudd_addTimes res1 res1
      else match f with
      | .leaf v => .leaf v
      | .node fi ft fec fe =>
        if fi = cj then
          cuddAddApplyRecur Cudd_addTimes (cuddAddUnivAbstractRecur ft ct)
            (cuddAddUnivAbstractRecur fe ct)
        else
          let res1 := cuddAddUnivAbstractRecur ft (.node cj ct cec ce)
          let res2 := cuddAddUnivAbstractRecur fe (.node cj ct cec ce)
          if res1 = res2 then res1 else cuddUniqueInter fi res1 ⟨false, res2⟩
    | .node fi ft fec fe, .leaf w =>
        let res1 := cuddAddUnivAbstractRecur ft (.leaf w)
        let res2 := cuddAddUnivAbstractRecur fe (.leaf w)
        if res1 = res2 then res1 else cuddUniqueInter fi res1 ⟨false, res2⟩
termination_by f cube => sizeOf f + sizeOf cube
decreasing_by all_goals (simp_wf; try omega)

/-- `cuddAddOrAbstractRecur` (cuddAddAbs.c:617-698): recursive step of
disjunctive abstraction on 0-1 ADDs; a sub-result equal to one
short-circuits the else-cofactor. -/
def cuddAddOrAbstractRecur : DD → DD → DD
  | f, cube =>
    if isConst f ∨ cube = DD.leaf 1 then f
    else match f, cube with
    | .leaf v, _ => .leaf v
    | .node fi ft fec fe, .leaf w =>
        let res1 := cuddAddOrAbstractRecur ft (.leaf w)
        let res2 := cuddAddOrAbstractRecur fe (.leaf w)
        if res1 = res2 then res1 else cuddUniqueInter fi res1 ⟨false, res2⟩
    | .node fi ft fec fe, .node cj ct cec ce =>
      if levelGt (.node fi ft fec fe) cj then
        cuddAddOrAbstractRecur (.node fi ft fec fe) ct
      else if fi = cj then
        let res1 := cuddAddOrAbstractRecur ft ct
        if res1 = DD.leaf 1 then res1
        else
          cuddAddApplyRecur Cudd_addOr res1 (cuddAddOrAbstractRecur fe ct)
      else
        let res1 := cuddAddOrAbstractRecur ft (.node cj ct cec ce)
        let res2 := cuddAddOrAbstractRecur fe (.node cj ct cec ce)
        if res1 = res2 then res1 else cuddUniqueInter fi res1 ⟨false, res2⟩
termination_by f cube => sizeOf f + sizeOf cube
decreasing_by all_goals (simp_wf; try omega)

/-- `cuddAddMinAbstractRecur` (cuddAddAbs.c:713-789): recursive step of
min abstraction; a vacuous cube variable is skipped without a combine
(min is idempotent). -/
def cuddAddMinAbstractRecur : DD → DD → DD
  | f, cube =>
    if f = DD.leaf 0 ∨ isConst cube then f
    else match cube with
    | .leaf _ => f
    | .node cj ct cec ce =>
      if levelGt f cj then
        cuddAddMinAbstractRecur f ct
      else match f with
      | .leaf v => .leaf v
      | .node fi ft fec fe =>
        if fi = cj then
          cuddAddApplyRecur Cudd_addMinimum (cuddAddMinAbstractRecur ft ct)
            (cuddAddMinAbstractRecur fe ct)
        else
          let res1 := cuddAddMinAbstractRecur ft (.node cj ct cec ce)
          let res2 := cuddAddMinAbstractRecur fe (.node cj ct cec ce)
          if res1 = res2 then res1 else cuddUniqueInter fi res1 ⟨false, res2⟩
termination_by f cube => sizeOf f + sizeOf cube
decreasing_by all_goals (simp_wf; try omega)

/-- `cuddAddMaxAbstractRecur` (cuddAddAbs.c:897-973): recursive step of
max abstraction, the mirror image of the min recursion. -/
def cuddAddMaxAbstractRecur : DD → DD → DD
  | f, cube =>
    if f = DD.leaf 0 ∨ isConst cube then f
    else match cube with
    | .leaf _ => f
    | .node cj ct cec ce =>
      if levelGt f cj then
        cuddAddMaxAbstractRecur f ct
      else match f with
      | .leaf v => .leaf v
      | .node fi ft fec fe =>
        if fi = cj then
          cuddAddApplyRecur Cudd_addMaximum (cuddAddMaxAbstractRecur ft ct)
            (cuddAddMaxAbstractRecur fe ct)
        else
          let res1 := cuddAddMaxAbstractRecur ft (.node cj ct cec ce)
          let res2 := cuddAddMaxAbstractRecur fe (.node cj ct cec ce)
          if res1 = res2 then res1 else cuddUniqueInter fi res1 ⟨false, res2⟩
termination_by f cube => sizeOf f + sizeOf cube
decreasing_by all_goals (simp_wf; try omega)

/-- `cuddAddMinExcept0AbstractRecur` (cuddAddAbs.c:806-882): the storm
except-0 min abstraction.  Below the top level it delegates entirely to the
plain min recursion: the vacuous case and both cofactor recursions call
`cuddAddMinAbstractRecur`, and only the combine at the outermost shared
variable uses `Cudd_addMinimumExcept0`. -/
def cuddAddMinExcept0AbstractRecur (f cube : DD) : DD :=
  if f = DD.leaf 0 ∨ isConst cube then f
  else match cube with
  | .leaf _ => f
  | .node cj ct cec ce =>
    if levelGt f cj then
      cuddAddMinAbstractRecur f ct
    else match f with
    | .leaf v => .leaf v
    | .node fi ft fec fe =>
      if fi = cj then
        cuddAddApplyRecur Cudd_addMinimumExcept0 (cuddAddMinAbstractRecur ft ct)
          (cuddAddMinAbstractRecur fe ct)
      else
        let res1 := cuddAddMinAbstractRecur ft (.node cj ct cec ce)
        let res2 := cuddAddMinAbstractRecur fe (.node cj ct cec ce)
        if res1 = res2 then res1 else cuddUniqueInter fi res1 ⟨false, res2⟩

/-- Modelled from the spec: the canonical node builder on boolean
references.  It keeps the then-edge regular by pushing a complement bit on
the then-side to the top of the new reference (the standard complement-edge
normalisation the Node Store maintains), and collapses equal children. -/
def mkBddNode (i : Nat) (t e : DdPtr) : DdPtr :=
  if t = e then t
  else if t.c then ⟨true, .node i t.n (!e.c) e.n⟩
  else ⟨false, .node i t.n e.c e.n⟩

/-- Modelled from the spec: a pointwise boolean combinator on boolean
references (the peer combinators of §6 restricted to the boolean side),
with the usual canonicalization discipline.  Terminals are the one node,
true when referenced regularly and false through a complement bit. -/
def bddApply (op : Bool → Bool → Bool) : DdPtr → DdPtr → DdPtr
  | ⟨pc, .leaf v⟩, ⟨qc, .leaf w⟩ =>
      if op (!pc) (!qc) then oneBddP else logicalZeroP
  | ⟨pc, .leaf v⟩, ⟨qc, .node j u uc w⟩ =>
      mkBddNode j (bddApply op ⟨pc, .leaf v⟩ ⟨qc, u⟩)
        (bddApply op ⟨pc, .leaf v⟩ ⟨xor qc uc, w⟩)
  | ⟨pc, .node i t tc e⟩, ⟨qc, .leaf w⟩ =>
      mkBddNode i (bddApply op ⟨pc, t⟩ ⟨qc, .leaf w⟩)
        (bddApply op ⟨xor pc tc, e⟩ ⟨qc, .leaf w⟩)
  | ⟨pc, .node i t tc e⟩, ⟨qc, .node j u uc w⟩ =>
      if i = j then
        mkBddNode i (bddApply op ⟨pc, t⟩ ⟨qc, u⟩)
          (bddApply op ⟨xor pc tc, e⟩ ⟨xor qc uc, w⟩)
      else if i < j then
        mkBddNode i (bddApply op ⟨pc, t⟩ ⟨qc, .node j u uc w⟩)
          (bddApply op ⟨xor pc tc, e⟩ ⟨qc, .node j u uc w⟩)
      else
        mkBddNode j (bddApply op ⟨pc, .node i t tc e⟩ ⟨qc, u⟩)
          (bddApply op ⟨pc, .node i t tc e⟩ ⟨xor qc uc, w⟩)
termination_by p q => sizeOf p.n + sizeOf q.n
decreasing_by all_goals (simp_wf; try omega)

/-- Modelled from the spec: `cuddBddIteRecur` of `cuddIte.c` (not part of
the excerpt), the boolean gating if-then-else the representative
extractors use; expressed through the boolean combinators, which yields
the same canonical result. -/
def cuddBddIteRecur (f g h : DdPtr) : DdPtr :=
  bddApply or (bddApply and f g) (bddApply and (Cudd_Not f) h)

/-- Modelled from the spec: `cuddAddToBddApplyRecur` of the storm CUDD
patch (not part of the excerpt) — the peer comparison combinator that turns
two ADDs into the BDD of a pointwise comparison, with the usual
canonicalization discipline. -/
def cuddAddToBddApplyRecur (op : Int → Int → Bool) : DD → DD → DdPtr
  | .leaf a, .leaf b => if op a b then oneBddP else logicalZeroP
  | .leaf a, .node j u uc v =>
      mkBddNode j (cuddAddToBddApplyRecur op (.leaf a) u)
        (cuddAddToBddApplyRecur op (.leaf a) v)
  | .node i t tc e, .leaf b =>
      mkBddNode i (cuddAddToBddApplyRecur op t (.leaf b))
        (cuddAddToBddApplyRecur op e (.leaf b))
  | .node i t tc e, .node j u uc v =>
      if i = j then
        mkBddNode i (cuddAddToBddApplyRecur op t u) (cuddAddToBddApplyRecur op e v)
      else if i < j then
        mkBddNode i (cuddAddToBddApplyRecur op t (.node j u uc v))
          (cuddAddToBddApplyRecur op e (.node j u uc v))
      else
        mkBddNode j (cuddAddToBddApplyRecur op (.node i t tc e) u)
          (cuddAddToBddApplyRecur op (.node i t tc e) v)
termination_by f g => sizeOf f + sizeOf g

/-- Modelled from the spec: the `<=` leaf comparison
(`Cudd_addToBddLessThanEquals`). -/
def Cudd_addToBddLessThanEquals (a b : Int) : Bool := a ≤ b

/-- Modelled from the spec: the `>=` leaf comparison
(`Cudd_addToBddGreaterThanEquals`). -/
def Cudd_addToBddGreaterThanEquals (a b : Int) : Bool := b ≤ a

/-- The node-building sequence shared by the matching cases of both
representative recursions and the pass-through case of the max one
(cuddAddAbs.c:1119-1134, 1310-1325, 1338-1351): derive the complement flag
from the two gated sub-results, build the node over the regular part of the
then-side result with the else-side result negated exactly when the flag is
set, and complement the final reference when the flag is set. -/
def repBuild (i : Nat) (p q : DdPtr) : DdPtr :=
  let cfl := if p = q then true else q.c
  let r :=
    if p = q then cuddUniqueInter i (.leaf 1) (Cudd_Not p)
    else cuddUniqueInter i q.n (if cfl then Cudd_Not p else p)
  if cfl then Cudd_Not ⟨false, r⟩ else ⟨false, r⟩

/-- The construction both representative recursions use for a cube variable
on which `f` does not depend (cuddAddAbs.c:1009-1024, 1028-1044, 1195-1210,
1215-1231): conjoin the negated fresh variable onto the sub-result, fixing
the newly-irrelevant cube variable to false. -/
def repForceFalse (cj : Nat) (res : DdPtr) : DdPtr :=
  Cudd_Not ⟨false, cuddUniqueInter cj (.leaf 1) (Cudd_Not res)⟩

/-- `cuddAddMinAbstractRepresentativeRecur` (cuddAddAbs.c:993-1163):
recursive step of the min representative extraction.  The matching case
gates the else-cofactor's representative by the BDD of
`minAbstract(E) <= minAbstract(T)` and the then-cofactor's by its negation.
In the pass-through case the else-edge passed to `cuddUniqueInter` is
`Cudd_Not res1` unconditionally (line 1148), unlike the three sibling
constructions, which negate it only when the complement flag is set. -/
def cuddAddMinAbstractRepresentativeRecur : DD → DD → DdPtr
  | f, cube =>
    match cube with
    | .leaf _ => oneBddP
    | .node cj ct cec ce =>
      match f with
      | .leaf v =>
          repForceFalse cj (cuddAddMinAbstractRepresentativeRecur (.leaf v) ct)
      | .node fi ft fec fe =>
        if levelGt (.node fi ft fec fe) cj then
          repForceFalse cj
            (cuddAddMinAbstractRepresentativeRecur (.node fi ft fec fe) ct)
        else if fi = cj then
          let res1 := cuddAddMinAbstractRepresentativeRecur fe ct
          let res2 := cuddAddMinAbstractRepresentativeRecur ft ct
          let left := cuddAddMinAbstractRecur fe ct
          let right := cuddAddMinAbstractRecur ft ct
          let tmp := cuddAddToBddApplyRecur Cudd_addToBddLessThanEquals left right
          let res1Inf := cuddBddIteRecur tmp res1 logicalZeroP
          let res2Inf := cuddBddIteRecur (Cudd_Not tmp) res2 logicalZeroP
          repBuild fi res1Inf res2Inf
        else
          let res1 := cuddAddMinAbstractRepresentativeRecur fe (.node cj ct cec ce)
          let res2 := cuddAddMinAbstractRepresentativeRecur ft (.node cj ct cec ce)
          let cfl := if res1 = res2 then true else res2.c
          let r :=
            if res1 = res2 then cuddUniqueInter fi (.leaf 1) (Cudd_Not res1)
            else cuddUniqueInter fi res2.n (Cudd_Not res1)
          if cfl then Cudd_Not ⟨false, r⟩ else ⟨false, r⟩
termination_by f cube => sizeOf f + sizeOf cube
decreasing_by all_goals (simp_wf; try omega)

/-- `cuddAddMaxAbstractRepresentativeRecur` (cuddAddAbs.c:1179-1353):
recursive step of the max representative extraction, gating by
`maxAbstract(E) >= maxAbstract(T)`; its pass-through case uses the shared
(complement-flag-guarded) construction. -/
def cuddAddMaxAbstractRepresentativeRecur : DD → DD → DdPtr
  | f, cube =>
    match cube with
    | .leaf _ => oneBddP
    | .node cj ct cec ce =>
      match f with
      | .leaf v =>
          repForceFalse cj (cuddAddMaxAbstractRepresentativeRecur (.leaf v) ct)
      | .node fi ft fec fe =>
        if levelGt (.node fi ft fec fe) cj then
          repForceFalse cj
            (cuddAddMaxAbstractRepresentativeRecur (.node fi ft fec fe) ct)
        else if fi = cj then
          let res1 := cuddAddMaxAbstractRepresentativeRecur fe ct
          let res2 := cuddAddMaxAbstractRepresentativeRecur ft ct
          let left := cuddAddMaxAbstractRecur fe ct
          let right := cuddAddMaxAbstractRecur ft ct
          let tmp := cuddAddToBddApplyRecur Cudd_addToBddGreaterThanEquals left right
          let res1Inf := cuddBddIteRecur tmp res1 logicalZeroP
          let res2Inf := cuddBddIteRecur (Cudd_Not tmp) res2 logicalZeroP
          repBuild fi res1Inf res2Inf
        else
          let res1 := cuddAddMaxAbstractRepresentativeRecur fe (.node cj ct cec ce)
          let res2 := cuddAddMaxAbstractRepresentativeRecur ft (.node cj ct cec ce)
          repBuild fi res1 res2
termination_by f cube => sizeOf f + sizeOf cube
decreasing_by all_goals (simp_wf; try omega)

/-- The recursion of `addCheckPositiveCube` along the true path
(cuddAddAbs.c:1374-1379): the one terminal is accepted; any other terminal
is rejected; a node is accepted exactly when its else-edge is the regular
zero terminal and its then-child passes recursively.  The stored then-edge
of a node is regular in this representation, so the complement test of the
recursive call (line 1373) is vacuous below the root and the recursion
descends through the nodes. -/
def addCheckPositiveCubeRecur : DD → Bool
  | .leaf v => v = 1
  | .node _ t ec e =>
      if ec = false ∧ e = DD.leaf 0 then addCheckPositiveCubeRecur t else false

/-- `addCheckPositiveCube` (cuddAddAbs.c:1368-1381): a complemented
reference is rejected (line 1373), otherwise the true path is checked. -/
def addCheckPositiveCube (p : DdPtr) : Bool :=
  if p.c then false else addCheckPositiveCubeRecur p.n

/-- The positive-cube predicate exactly as the claim describes the check on
a (non-complemented) node: the true terminal is valid, any other terminal
is invalid, and a non-terminal is valid only if its else-child is exactly
the zero terminal and its then-child validates recursively. -/
def specPositiveCube : DD → Bool
  | .leaf v => v = 1
  | .node _ t ec e => (!ec && (e = DD.leaf 0 : Bool)) && specPositiveCube t

/-- The operator identities under which the recursive operators key their
cache entries; the C code uses the public entry points' function pointers. -/
inductive CacheOp where
  | existAb | univAb | orAb | minAb | maxAb | minRepAb | maxRepAb
deriving DecidableEq, Repr

/-- The operation cache, made explicit where a claim is about its keying:
an association of `(operator-id, f, cube)` keys to results. -/
abbrev Cache := List ((CacheOp × DD × DD) × DD)

/-- `cuddCacheLookup2`: first entry stored under the key, if any. -/
def cacheLookup : Cache → CacheOp × DD × DD → Option DD
  | [], _ => none
  | (k, r) :: rest, q => if k = q then some r else cacheLookup rest q

/-- `cuddCacheInsert2`: record a result under a key. -/
def cacheInsert (κ : Cache) (k : CacheOp × DD × DD) (r : DD) : Cache :=
  (k, r) :: κ

/-- `cuddAddMinAbstractRecur` with the operation cache threaded explicitly
(cuddAddAbs.c:713-789): the terminal and vacuous cases bypass the cache,
the lookup at line 734 and the inserts at lines 762 and 785 all use the
`Cudd_addMinAbstract` key. -/
def cuddAddMinAbstractRecurWithCache : DD → DD → Cache → DD × Cache
  | f, cube, κ =>
    if f = DD.leaf 0 ∨ isConst cube then (f, κ)
    else match cube with
    | .leaf _ => (f, κ)
    | .node cj ct cec ce =>
      if levelGt f cj then
        cuddAddMinAbstractRecurWithCache f ct κ
      else
        match cacheLookup κ (CacheOp.minAb, f, .node cj ct cec ce) with
        | some r => (r, κ)
        | none =>
          match f with
          | .leaf v => (.leaf v, κ)
          | .node fi ft fec fe =>
            if fi = cj then
              let p := cuddAddMinAbstractRecurWithCache ft ct κ
              let q := cuddAddMinAbstractRecurWithCache fe ct p.2
              let res := cuddAddApplyRecur Cudd_addMinimum p.1 q.1
              (res, cacheInsert q.2 (CacheOp.minAb, .node fi ft fec fe, .node cj ct cec ce) res)
            else
              let p := cuddAddMinAbstractRecurWithCache ft (.node cj ct cec ce) κ
              let q := cuddAddMinAbstractRecurWithCache fe (.node cj ct cec ce) p.2
              let res := if p.1 = q.1 then p.1 else cuddUniqueInter fi p.1 ⟨false, q.1⟩
              (res, cacheInsert q.2 (CacheOp.minAb, .node fi ft fec fe, .node cj ct cec ce) res)
termination_by f cube κ => sizeOf f + sizeOf cube
decreasing_by all_goals (simp_wf; try omega)

/-- `cuddAddMinExcept0AbstractRecur` with the operation cache threaded
explicitly (cuddAddAbs.c:806-882).  Its lookup (line 827) and both inserts
(lines 855 and 878) use the `Cudd_addMinAbstract` key — the same key as the
plain min recursion — and every recursive call delegates to the plain min
recursion. -/
def cuddAddMinExcept0AbstractRecurWithCache (f cube : DD) (κ : Cache) : DD × Cache :=
  if f = DD.leaf 0 ∨ isConst cube then (f, κ)
  else match cube with
  | .leaf _ => (f, κ)
  | .node cj ct cec ce =>
    if levelGt f cj then
      cuddAddMinAbstractRecurWithCache f ct κ
    else
      match cacheLookup κ (CacheOp.minAb, f, .node cj ct cec ce) with
      | some r => (r, κ)
      | none =>
        match f with
        | .leaf v => (.leaf v, κ)
        | .node fi ft fec fe =>
          if fi = cj then
            let p := cuddAddMinAbstractRecurWithCache ft ct κ
            let q := cuddAddMinAbstractRecurWithCache fe ct p.2
            let res := cuddAddApplyRecur Cudd_addMinimumExcept0 p.1 q.1
            (res, cacheInsert q.2 (CacheOp.minAb, .node fi ft fec fe, .node cj ct cec ce) res)
          else
            let p := cuddAddMinAbstractRecurWithCache ft (.node cj ct cec ce) κ
            let q := cuddAddMinAbstractRecurWithCache fe (.node cj ct cec ce) p.2
            let res := if p.1 = q.1 then p.1 else cuddUniqueInter fi p.1 ⟨false, q.1⟩
            (res, cacheInsert q.2 (CacheOp.minAb, .node fi ft fec fe, .node cj ct cec ce) res)

/-- The manager state a public entry point consults after its retry loop:
whether the deadline has fired (`errorCode == CUDD_TIMEOUT_EXPIRED`) and
whether a timeout handler is configured.  The retry loop itself is
collapsed — reordering is out of scope and the pure recursions always
complete — and, per the spec (§5), when the deadline has fired the
recursion unwinds and the call carries no result. -/
structure DdManager where
  timeoutExpired : Bool
  hasTimeoutHandler : Bool
deriving DecidableEq, Repr

/-- `Cudd_addExistAbstract` (cuddAddAbs.c:102-125): validate the cube,
run the recursion, and — at the top level only — invoke the configured
timeout handler when the deadline has fired.  The second component counts
handler invocations. -/
def Cudd_addExistAbstract (m : DdManager) (f : DD) (cube : DdPtr) : Option DD × Nat :=
  if addCheckPositiveCube cube = false then (none, 0)
  else
    (if m.timeoutExpired then none else some (cuddAddExistAbstractRecur f cube.n),
     if m.timeoutExpired && m.hasTimeoutHandler then 1 else 0)

/-- `Cudd_addUnivAbstract` (cuddAddAbs.c:142-165): as
`Cudd_addExistAbstract`, with the universal recursion. -/
def Cudd_addUnivAbstract (m : DdManager) (f : DD) (cube : DdPtr) : Option DD × Nat :=
  if addCheckPositiveCube cube = false then (none, 0)
  else
    (if m.timeoutExpired then none else some (cuddAddUnivAbstractRecur f cube.n),
     if m.timeoutExpired && m.hasTimeoutHandler then 1 else 0)

/-- `Cudd_addOrAbstract` (cuddAddAbs.c:183-205): as
`Cudd_addExistAbstract`, with the disjunctive recursion. -/
def Cudd_addOrAbstract (m : DdManager) (f : DD) (cube : DdPtr) : Option DD × Nat :=
  if addCheckPositiveCube cube = false then (none, 0)
  else
    (if m.timeoutExpired then none else some (cuddAddOrAbstractRecur f cube.n),
     if m.timeoutExpired && m.hasTimeoutHandler then 1 else 0)

/-- `Cudd_addMinAbstract` (cuddAddAbs.c:224-243): validates and runs the
min recursion; its post-loop code contains no timeout-handler invocation. -/
def Cudd_addMinAbstract (m : DdManager) (f : DD) (cube : DdPtr) : Option DD × Nat :=
  if addCheckPositiveCube cube = false then (none, 0)
  else
    (if m.timeoutExpired then none else some (cuddAddMinAbstractRecur f cube.n), 0)

/-- `Cudd_addMinExcept0Abstract` (cuddAddAbs.c:263-282): validates and runs
the except-0 min recursion; no timeout-handler invocation. -/
def Cudd_addMinExcept0Abstract (m : DdManager) (f : DD) (cube : DdPtr) : Option DD × Nat :=
  if addCheckPositiveCube cube = false then (none, 0)
  else
    (if m.timeoutExpired then none else some (cuddAddMinExcept0AbstractRecur f cube.n), 0)

/-- `Cudd_addMaxAbstract` (cuddAddAbs.c:301-320): validates and runs the
max recursion; no timeout-handler invocation. -/
def Cudd_addMaxAbstract (m : DdManager) (f : DD) (cube : DdPtr) : Option DD × Nat :=
  if addCheckPositiveCube cube = false then (none, 0)
  else
    (if m.timeoutExpired then none else some (cuddAddMaxAbstractRecur f cube.n), 0)

/-- `Cudd_addMinAbstractRepresentative` (cuddAddAbs.c:337-356): validates
and runs the min representative recursion; no timeout-handler invocation. -/
def Cudd_addMinAbstractRepresentative (m : DdManager) (f : DD) (cube : DdPtr) :
    Option DdPtr × Nat :=
  if addCheckPositiveCube cube = false then (none, 0)
  else
    (if m.timeoutExpired then none
     else some (cuddAddMinAbstractRepresentativeRecur f cube.n), 0)

/-- `Cudd_addMaxAbstractRepresentative` (cuddAddAbs.c:373-392): validates
and runs the max representative recursion; no timeout-handler invocation. -/
def Cudd_addMaxAbstractRepresentative (m : DdManager) (f : DD) (cube : DdPtr) :
    Option DdPtr × Nat :=
  if addCheckPositiveCube cube = false then (none, 0)
  else
    (if m.timeoutExpired then none
     else some (cuddAddMaxAbstractRepresentativeRecur f cube.n), 0)

/-- The arithmetic denotation of an ADD under an assignment of the
variables.  ADDs carry no complement bits; the recursion follows the
stored children. -/
def evalA : DD → (Nat → Bool) → Int
  | .leaf v, _ => v
  | .node i t _ e, env => if env i then evalA t env else evalA e env

/-- The boolean denotation of a regular boolean node: the terminal is the
one node (true), and an internal node selects its then-child or its
else-edge, whose complement bit negates. -/
def evalR : DD → (Nat → Bool) → Bool
  | .leaf _, _ => true
  | .node i t ec e, env => if env i then evalR t env else xor ec (evalR e env)

/-- The boolean denotation of a reference: the complement bit negates the
node's denotation. -/
def evalB (p : DdPtr) (env : Nat → Bool) : Bool := xor p.c (evalR p.n env)

/-- Modelled from the spec: the cofactor (glossary) — the subfunction
obtained by fixing one variable to a constant. -/
def cofactor : DD → Nat → Bool → DD
  | .leaf v, _, _ => .leaf v
  | .node i t ec e, x, b =>
      if i = x then (if b then t else e)
      else .node i (cofactor t x b) ec (cofactor e x b)

/-- Modelled from the spec: leaf-wise negation of an ADD
(`Cudd_addNegate`, not part of the excerpt). -/
def Cudd_addNegate : DD → DD
  | .leaf v => .leaf (-v)
  | .node i t ec e => .node i (Cudd_addNegate t) ec (Cudd_addNegate e)

/-- The data-model ordering invariant (§3, invariant 2) restricted to a
diagram: every child's top position is strictly later than its parent's. -/
def ordered : DD → Bool
  | .leaf _ => true
  | .node i t _ e => levelGt t i && levelGt e i && ordered t && ordered e

/-- Every variable occurring in the diagram is strictly above `x`. -/
def allVarsGt (x : Nat) : DD → Bool
  | .leaf _ => true
  | .node i t _ e => decide (x < i) && allVarsGt x t && allVarsGt x e

lemma evalA_canonicalize (i : Nat) (t e : DD) (env : Nat → Bool) :
    evalA (canonicalize i t e) env = if env i then evalA t env else evalA e env := by
  unfold canonicalize
  split
  · next h => subst h; split <;> rfl
  · rfl

lemma evalA_cuddAddApplyRecur (op : Int → Int → Int) (f g : DD) (env : Nat → Bool) :
    evalA (cuddAddApplyRecur op f g) env = op (evalA f env) (evalA g env) := by
  induction f, g using cuddAddApplyRecur.induct op with
  | case1 a b => simp [cuddAddApplyRecur, evalA]
  | case2 v j u uc w ih1 ih2 =>
      rw [cuddAddApplyRecur]
      by_cases h : env j = true <;> simp [evalA_canonicalize, evalA, h, ih1, ih2]
  | case3 i t tc e b ih1 ih2 =>
      rw [cuddAddApplyRecur]
      by_cases h : env i = true <;> simp [evalA_canonicalize, evalA, h, ih1, ih2]
  | case4 t tc e j u uc v ih1 ih2 =>
      rw [cuddAddApplyRecur]
      by_cases h : env j = true <;> simp [evalA_canonicalize, evalA, h, ih1, ih2]
  | case5 i t tc e j u uc v h1 h2 ih1 ih2 =>
      rw [cuddAddApplyRecur]
      rw [if_neg h1, if_pos h2]
      by_cases h : env i = true <;> simp [evalA_canonicalize, evalA, h, ih1, ih2]
  | case6 i t tc e j u uc v h1 h2 ih1 ih2 =>
      rw [cuddAddApplyRecur]
      rw [if_neg h1, if_neg h2]
      by_cases h : env j = true <;> simp [evalA_canonicalize, evalA, h, ih1, ih2]

lemma cuddAddApplyRecur_comm (op : Int → Int → Int)
    (hop : ∀ a b, op a b = op b a) (f g : DD) :
    cuddAddApplyRecur op f g = cuddAddApplyRecur op g f := by
  induction f, g using cuddAddApplyRecur.induct op with
  | case1 a b => rw [cuddAddApplyRecur, cuddAddApplyRecur, hop]
  | case2 v j u uc w ih1 ih2 =>
      rw [cuddAddApplyRecur, cuddAddApplyRecur, ih1, ih2]
  | case3 i t tc e b ih1 ih2 =>
      rw [cuddAddApplyRecur, cuddAddApplyRecur, ih1, ih2]
  | case4 t tc e j u uc v ih1 ih2 =>
      rw [cuddAddApplyRecur, cuddAddApplyRecur]
      simp [ih1, ih2]
  | case5 i t tc e j u uc v h1 h2 ih1 ih2 =>
      rw [cuddAddApplyRecur, cuddAddApplyRecur]
      have h1' : ¬j = i := fun h => h1 h.symm
      have h2' : ¬j < i := by omega
      rw [if_neg h1, if_pos h2, if_neg h1', if_neg h2', ih1, ih2]
  | case6 i t tc e j u uc v h1 h2 ih1 ih2 =>
      rw [cuddAddApplyRecur, cuddAddApplyRecur]
      have h1' : ¬j = i := fun h => h1 h.symm
      have h2' : j < i := by omega
      rw [if_neg h1, if_neg h2, if_neg h1', if_pos h2', ih1, ih2]

lemma evalB_Cudd_Not (p : DdPtr) (env : Nat → Bool) :
    evalB (Cudd_Not p) env = !evalB p env := by
  cases p with
  | mk c n => cases c <;> simp [Cudd_Not, evalB]

lemma evalB_oneBddP (env : Nat → Bool) : evalB oneBddP env = true := rfl

lemma evalB_logicalZeroP (env : Nat → Bool) : evalB logicalZeroP env = false := rfl

lemma evalB_mkBddNode (i : Nat) (t e : DdPtr) (env : Nat → Bool) :
    evalB (mkBddNode i t e) env = if env i then evalB t env else evalB e env := by
  unfold mkBddNode
  split
  · next h => subst h; split <;> rfl
  · cases t with
  | mk tc tn =>
      cases e with
      | mk ec en =>
          by_cases h : env i = true <;>
            cases tc <;> cases ec <;> simp [evalB, evalR, h]

lemma evalB_bddApply (op : Bool → Bool → Bool) (p q : DdPtr) (env : Nat → Bool) :
    evalB (bddApply op p q) env = op (evalB p env) (evalB q env) := by
  induction p, q using bddApply.induct op with
  | case1 pc v qc w hop =>
      rw [bddApply]
      simp [evalB, evalR, oneBddP, logicalZeroP, if_pos hop, hop]
  | case2 pc v qc w hop =>
      rw [bddApply]
      simp only [if_neg hop]
      simp [evalB, evalR, logicalZeroP]
      simp [Bool.not_eq_true] at hop
      simp [hop]
  | case3 pc v qc j u uc w ih1 ih2 =>
      rw [bddApply, evalB_mkBddNode]
      by_cases h : env j = true <;>
        simp [evalB, evalR, h, Bool.xor_assoc] at ih1 ih2 ⊢ <;>
        simp [ih1, ih2]
  | case4 pc i t tc e qc w ih1 ih2 =>
      rw [bddApply, evalB_mkBddNode]
      by_cases h : env i = true <;>
        simp [evalB, evalR, h, Bool.xor_assoc] at ih1 ih2 ⊢ <;>
        simp [ih1, ih2]
  | case5 pc t tc e qc j u uc w ih1 ih2 =>
      rw [bddApply]
      simp only [if_true]
      rw [evalB_mkBddNode]
      by_cases h : env j = true <;>
        simp [evalB, evalR, h, Bool.xor_assoc] at ih1 ih2 ⊢ <;>
        simp [ih1, ih2]
  | case6 pc i t tc e qc j u uc w h1 h2 ih1 ih2 =>
      rw [bddApply]
      rw [if_neg h1, if_pos h2, evalB_mkBddNode]
      by_cases h : env i = true <;>
        simp [evalB, evalR, h, Bool.xor_assoc] at ih1 ih2 ⊢ <;>
        simp [ih1, ih2]
  | case7 pc i t tc e qc j u uc w h1 h2 ih1 ih2 =>
      rw [bddApply]
      rw [if_neg h1, if_neg h2, evalB_mkBddNode]
      by_cases h : env j = true <;>
        simp [evalB, evalR, h, Bool.xor_assoc] at ih1 ih2 ⊢ <;>
        simp [ih1, ih2]

lemma evalB_cuddBddIteRecur (f g h : DdPtr) (env : Nat → Bool) :
    evalB (cuddBddIteRecur f g h) env =
      if evalB f env then evalB g env else evalB h env := by
  unfold cuddBddIteRecur
  rw [evalB_bddApply, evalB_bddApply, evalB_bddApply, evalB_Cudd_Not]
  cases hf : evalB f env <;> simp

lemma evalB_cuddAddToBddApplyRecur (op : Int → Int → Bool) (f g : DD) (env : Nat → Bool) :
    evalB (cuddAddToBddApplyRecur op f g) env = op (evalA f env) (evalA g env) := by
  induction f, g using cuddAddToBddApplyRecur.induct op with
  | case1 a b hop =>
      rw [cuddAddToBddApplyRecur]
      simp [evalB, evalR, oneBddP, evalA, if_pos hop, hop]
  | case2 a b hop =>
      rw [cuddAddToBddApplyRecur]
      simp only [if_neg hop]
      simp [evalB, evalR, logicalZeroP, evalA]
      simpa using hop
  | case3 a j u uc w ih1 ih2 =>
      rw [cuddAddToBddApplyRecur, evalB_mkBddNode]
      by_cases h : env j = true <;> simp [evalA, h, ih1, ih2]
  | case4 i t tc e b ih1 ih2 =>
      rw [cuddAddToBddApplyRecur, evalB_mkBddNode]
      by_cases h : env i = true <;> simp [evalA, h, ih1, ih2]
  | case5 t tc e j u uc v ih1 ih2 =>
      rw [cuddAddToBddApplyRecur]
      simp only [if_true]
      rw [evalB_mkBddNode]
      by_cases h : env j = true <;> simp [evalA, h, ih1, ih2]
  | case6 i t tc e j u uc v h1 h2 ih1 ih2 =>
      rw [cuddAddToBddApplyRecur]
      rw [if_neg h1, if_pos h2, evalB_mkBddNode]
      by_cases h : env i = true <;> simp [evalA, h, ih1, ih2]
  | case7 i t tc e j u uc v h1 h2 ih1 ih2 =>
      rw [cuddAddToBddApplyRecur]
      rw [if_neg h1, if_neg h2, evalB_mkBddNode]
      by_cases h : env j = true <;> simp [evalA, h, ih1, ih2]

lemma evalR_cuddUniqueInter (i : Nat) (t : DD) (e : DdPtr) (env : Nat → Bool) :
    evalR (cuddUniqueInter i t e) env =
      if env i then evalR t env else evalB e env := by
  unfold cuddUniqueInter
  split
  · next h => subst h; simp [evalB]
  · simp [evalR, evalB]

lemma evalB_repForceFalse (cj : Nat) (res : DdPtr) (env : Nat → Bool) :
    evalB (repForceFalse cj res) env = (!env cj && evalB res env) := by
  unfold repForceFalse
  rw [evalB_Cudd_Not]
  have h1 : evalB ⟨false, cuddUniqueInter cj (.leaf 1) (Cudd_Not res)⟩ env
      = evalR (cuddUniqueInter cj (.leaf 1) (Cudd_Not res)) env := by
    simp [evalB]
  rw [h1, evalR_cuddUniqueInter]
  by_cases h : env cj = true <;> simp [h, evalR, evalB_Cudd_Not]

lemma evalB_repBuild (i : Nat) (p q : DdPtr) (env : Nat → Bool) :
    evalB (repBuild i p q) env =
      if p = q then (!env i && evalB p env)
      else (if env i then evalB q env else evalB p env) := by
  unfold repBuild
  by_cases hpq : p = q
  · simp only [if_pos hpq, if_true]
    have h0 : Cudd_Not ⟨false, cuddUniqueInter i (.leaf 1) (Cudd_Not p)⟩
        = repForceFalse i p := rfl
    rw [h0, evalB_repForceFalse]
  · simp only [if_neg hpq]
    cases q with
  | mk qc qn =>
      have h1 : ∀ x : DD, evalB ⟨false, x⟩ env = evalR x env := by
        intro x; simp [evalB]
      cases qc <;>
        simp only [if_neg hpq, Bool.false_eq_true, if_false, if_true,
          evalB_Cudd_Not, h1, evalR_cuddUniqueInter] <;>
        by_cases h : env i = true <;>
        simp [h, evalB, evalB_Cudd_Not]

lemma allVarsGt_mono (x y : Nat) (f : DD) (hxy : x ≤ y)
    (h : allVarsGt y f = true) : allVarsGt x f = true := by
  induction f with
  | leaf v => rfl
  | node i t ec e iht ihe =>
      simp only [allVarsGt, Bool.and_eq_true, decide_eq_true_eq] at h ⊢
      exact ⟨⟨by omega, iht h.1.2⟩, ihe h.2⟩

lemma allVarsGt_of_ordered : ∀ (f : DD) (x : Nat), ordered f = true →
    levelGt f x = true → allVarsGt x f = true := by
  intro f
  induction f with
  | leaf v => intro x _ _; rfl
  | node i t ec e iht ihe =>
      intro x ho hl
      simp only [ordered, Bool.and_eq_true] at ho
      simp only [levelGt, decide_eq_true_eq] at hl
      simp only [allVarsGt, Bool.and_eq_true, decide_eq_true_eq]
      refine ⟨⟨hl, ?_⟩, ?_⟩
      · exact allVarsGt_mono x i t (by omega) (iht i ho.1.2 ho.1.1.1)
      · exact allVarsGt_mono x i e (by omega) (ihe i ho.2 ho.1.1.2)

lemma evalA_indep (x : Nat) (b : Bool) : ∀ (f : DD) (env : Nat → Bool),
    allVarsGt x f = true →
    evalA f (fun m => if m = x then b else env m) = evalA f env := by
  intro f
  induction f with
  | leaf v => intro env _; rfl
  | node i t ec e iht ihe =>
      intro env h
      simp only [allVarsGt, Bool.and_eq_true, decide_eq_true_eq] at h
      have hix : ¬i = x := by omega
      simp [evalA, hix, iht env h.1.2, ihe env h.2]

lemma cofactor_indep (x : Nat) (b : Bool) : ∀ (f : DD),
    allVarsGt x f = true → cofactor f x b = f := by
  intro f
  induction f with
  | leaf v => intro _; rfl
  | node i t ec e iht ihe =>
      intro h
      simp only [allVarsGt, Bool.and_eq_true, decide_eq_true_eq] at h
      have hix : ¬i = x := by omega
      simp [cofactor, hix, iht h.1.2, ihe h.2]

lemma evalA_cofactor (x : Nat) (b : Bool) : ∀ (f : DD) (env : Nat → Bool),
    ordered f = true →
    evalA (cofactor f x b) env = evalA f (fun m => if m = x then b else env m) := by
  intro f
  induction f with
  | leaf v => intro env _; rfl
  | node i t ec e iht ihe =>
      intro env ho
      simp only [ordered, Bool.and_eq_true] at ho
      by_cases hix : i = x
      · subst hix
        have ht := allVarsGt_of_ordered t i ho.1.2 ho.1.1.1
        have he := allVarsGt_of_ordered e i ho.2 ho.1.1.2
        have hstep : evalA (DD.node i t ec e) (fun m => if m = i then b else env m)
            = if b then evalA t (fun m => if m = i then b else env m)
              else evalA e (fun m => if m = i then b else env m) := by
          cases b <;> simp [evalA]
        rw [hstep, evalA_indep i b t env ht, evalA_indep i b e env he]
        cases b <;> simp [cofactor]
      · simp [cofactor, hix, evalA, iht env ho.1.2, ihe env ho.2]

lemma cuddAddNegate_involutive (f : DD) : Cudd_addNegate (Cudd_addNegate f) = f := by
  induction f with
  | leaf v => simp [Cudd_addNegate]
  | node i t ec e iht ihe => simp [Cudd_addNegate, iht, ihe]

lemma cuddAddNegate_inj (f g : DD) (h : Cudd_addNegate f = Cudd_addNegate g) : f = g := by
  have h1 := congrArg Cudd_addNegate h
  rwa [cuddAddNegate_involutive, cuddAddNegate_involutive] at h1

lemma levelGt_cuddAddNegate (f : DD) (j : Nat) :
    levelGt (Cudd_addNegate f) j = levelGt f j := by
  cases f <;> simp [Cudd_addNegate, levelGt]

lemma isConst_cuddAddNegate (f : DD) : isConst (Cudd_addNegate f) = isConst f := by
  cases f <;> simp [Cudd_addNegate, isConst]

lemma cuddAddNegate_eq_zero (f : DD) : Cudd_addNegate f = DD.leaf 0 ↔ f = DD.leaf 0 := by
  cases f with
  | leaf v =>
      simp [Cudd_addNegate]
  | node i t ec e => simp [Cudd_addNegate]

lemma cuddAddNegate_canonicalize (i : Nat) (t e : DD) :
    Cudd_addNegate (canonicalize i t e)
      = canonicalize i (Cudd_addNegate t) (Cudd_addNegate e) := by
  unfold canonicalize
  by_cases h : t = e
  · simp [h]
  · have h2 : ¬Cudd_addNegate t = Cudd_addNegate e := fun hc => h (cuddAddNegate_inj t e hc)
    simp [h, h2, Cudd_addNegate]

lemma cuddAddNegate_apply (op1 op2 : Int → Int → Int)
    (hop : ∀ a b, -(op1 a b) = op2 (-a) (-b)) : ∀ f g : DD,
    Cudd_addNegate (cuddAddApplyRecur op1 f g)
      = cuddAddApplyRecur op2 (Cudd_addNegate f) (Cudd_addNegate g) := by
  intro f g
  induction f, g using cuddAddApplyRecur.induct op1 with
  | case1 a b =>
      rw [cuddAddApplyRecur]
      simp only [Cudd_addNegate]
      rw [cuddAddApplyRecur, hop]
  | case2 v j u uc w ih1 ih2 =>
      rw [cuddAddApplyRecur, cuddAddNegate_canonicalize, ih1, ih2]
      simp only [Cudd_addNegate]
      rw [cuddAddApplyRecur]
  | case3 i t tc e b ih1 ih2 =>
      rw [cuddAddApplyRecur, cuddAddNegate_canonicalize, ih1, ih2]
      simp only [Cudd_addNegate]
      rw [cuddAddApplyRecur]
  | case4 t tc e j u uc v ih1 ih2 =>
      rw [cuddAddApplyRecur]
      simp only [eq_self_iff_true, if_true]
      rw [cuddAddNegate_canonicalize, ih1, ih2]
      simp only [Cudd_addNegate]
      rw [cuddAddApplyRecur]
      simp
  | case5 i t tc e j u uc v h1 h2 ih1 ih2 =>
      rw [cuddAddApplyRecur, if_neg h1, if_pos h2, cuddAddNegate_canonicalize, ih1, ih2]
      simp only [Cudd_addNegate]
      rw [cuddAddApplyRecur, if_neg h1, if_pos h2]
  | case6 i t tc e j u uc v h1 h2 ih1 ih2 =>
      rw [cuddAddApplyRecur, if_neg h1, if_neg h2, cuddAddNegate_canonicalize, ih1, ih2]
      simp only [Cudd_addNegate]
      rw [cuddAddApplyRecur, if_neg h1, if_neg h2]

/-- C2 (claim as stated is refuted here): abstracting over the empty cube
(the true terminal) does not return `f` itself for the representative
extractors — at `f = leaf 5` the min representative extractor returns the
(regular reference to the) one terminal, not the reference to `f`. -/
theorem claimC2_counterexample :
    cuddAddMinAbstractRepresentativeRecur (DD.leaf 5) (DD.leaf 1) = ⟨false, DD.leaf 1⟩
    ∧ (⟨false, DD.leaf 1⟩ : DdPtr) ≠ ⟨false, DD.leaf 5⟩ := by
  constructor
  · rw [cuddAddMinAbstractRepresentativeRecur]; rfl
  · simp

/-- C2 (amended): over the empty cube (the true terminal) the five value
abstractions — existential, universal, disjunctive, min, and max — return
`f` itself, while the min/max representative extractors return the
constant-true selector (the regular reference to the one terminal). -/
theorem claimC2_empty_cube (f : DD) :
    cuddAddExistAbstractRecur f (DD.leaf 1) = f
    ∧ cuddAddUnivAbstractRecur f (DD.leaf 1) = f
    ∧ cuddAddOrAbstractRecur f (DD.leaf 1) = f
    ∧ cuddAddMinAbstractRecur f (DD.leaf 1) = f
    ∧ cuddAddMaxAbstractRecur f (DD.leaf 1) = f
    ∧ cuddAddMinAbstractRepresentativeRecur f (DD.leaf 1) = oneBddP
    ∧ cuddAddMaxAbstractRepresentativeRecur f (DD.leaf 1) = oneBddP := by
  refine ⟨?_, ?_, ?_, ?_, ?_, ?_, ?_⟩
  · rw [cuddAddExistAbstractRecur]; simp [isConst]
  · rw [cuddAddUnivAbstractRecur.eq_def]; simp
  · rw [cuddAddOrAbstractRecur.eq_def]; simp
  · rw [cuddAddMinAbstractRecur]; simp [isConst]
  · rw [cuddAddMaxAbstractRecur]; simp [isConst]
  · rw [cuddAddMinAbstractRepresentativeRecur]
  · rw [cuddAddMaxAbstractRepresentativeRecur]

lemma existAbs_zero (cube : DD) :
    cuddAddExistAbstractRecur (DD.leaf 0) cube = DD.leaf 0 := by
  rw [cuddAddExistAbstractRecur.eq_def]
  simp

lemma existAbs_vacuous (f : DD) (cj : Nat) (ct : DD) (cec : Bool) (ce : DD)
    (hf : f ≠ DD.leaf 0) (hlev : levelGt f cj = true) :
    cuddAddExistAbstractRecur f (DD.node cj ct cec ce)
      = cuddAddApplyRecur Cudd_addPlus (cuddAddExistAbstractRecur f ct)
          (cuddAddExistAbstractRecur f ct) := by
  rw [cuddAddExistAbstractRecur.eq_def]
  simp [hf, isConst, hlev]

lemma existAbs_match (fi : Nat) (ft : DD) (fec : Bool) (fe : DD) (ct : DD) (cec : Bool) (ce : DD) :
    cuddAddExistAbstractRecur (DD.node fi ft fec fe) (DD.node fi ct cec ce)
      = cuddAddApplyRecur Cudd_addPlus (cuddAddExistAbstractRecur ft ct)
          (cuddAddExistAbstractRecur fe ct) := by
  rw [cuddAddExistAbstractRecur.eq_def]
  simp [isConst, levelGt]

lemma mkA_eq_canonicalize (i : Nat) (t e : DD) :
    (if t = e then t else cuddUniqueInter i t ⟨false, e⟩) = canonicalize i t e := by
  unfold canonicalize cuddUniqueInter
  by_cases h : t = e
  · simp [h]
  · have h2 : ¬(⟨false, e⟩ : DdPtr) = ⟨false, t⟩ := by simp; exact fun hc => h hc.symm
    simp [h, h2]

lemma existAbs_pass (fi : Nat) (ft : DD) (fec : Bool) (fe : DD)
    (cj : Nat) (ct : DD) (cec : Bool) (ce : DD) (hij : fi < cj) :
    cuddAddExistAbstractRecur (DD.node fi ft fec fe) (DD.node cj ct cec ce)
      = canonicalize fi (cuddAddExistAbstractRecur ft (DD.node cj ct cec ce))
          (cuddAddExistAbstractRecur fe (DD.node cj ct cec ce)) := by
  rw [cuddAddExistAbstractRecur.eq_def]
  have h1 : ¬(cj < fi) := by omega
  have h2 : ¬(fi = cj) := by omega
  simp [isConst, levelGt, h1, h2, mkA_eq_canonicalize]

lemma univAbs_vacuous (f : DD) (cj : Nat) (ct : DD) (cec : Bool) (ce : DD)
    (hf0 : f ≠ DD.leaf 0) (hf1 : f ≠ DD.leaf 1) (hlev : levelGt f cj = true) :
    cuddAddUnivAbstractRecur f (DD.node cj ct cec ce)
      = cuddAddApplyRecur Cudd_addTimes (cuddAddUnivAbstractRecur f ct)
          (cuddAddUnivAbstractRecur f ct) := by
  rw [cuddAddUnivAbstractRecur.eq_def]
  simp only [hf0, hf1, false_or, if_false, reduceCtorEq]
  cases f with
  | leaf v => simp [hlev]
  | node fi ft fec fe => simp [hlev]

lemma orAbs_const (f cube : DD) (hf : isConst f = true) :
    cuddAddOrAbstractRecur f cube = f := by
  rw [cuddAddOrAbstractRecur.eq_def]
  simp [hf]

lemma orAbs_vacuous (f : DD) (cj : Nat) (ct : DD) (cec : Bool) (ce : DD)
    (hf : isConst f = false) (hlev : levelGt f cj = true) :
    cuddAddOrAbstractRecur f (DD.node cj ct cec ce)
      = cuddAddOrAbstractRecur f ct := by
  cases f with
  | leaf v => simp [isConst] at hf
  | node fi ft fec fe =>
      rw [cuddAddOrAbstractRecur.eq_def]
      simp [isConst, hlev]

lemma minAbs_zero (cube : DD) :
    cuddAddMinAbstractRecur (DD.leaf 0) cube = DD.leaf 0 := by
  rw [cuddAddMinAbstractRecur.eq_def]
  simp

lemma minAbs_constCube (f : DD) (v : Int) :
    cuddAddMinAbstractRecur f (DD.leaf v) = f := by
  rw [cuddAddMinAbstractRecur.eq_def]
  simp [isConst]

lemma minAbs_vacuous (f : DD) (cj : Nat) (ct : DD) (cec : Bool) (ce : DD)
    (hf : f ≠ DD.leaf 0) (hlev : levelGt f cj = true) :
    cuddAddMinAbstractRecur f (DD.node cj ct cec ce)
      = cuddAddMinAbstractRecur f ct := by
  rw [cuddAddMinAbstractRecur.eq_def]
  simp [hf, isConst, hlev]

lemma minAbs_match (fi : Nat) (ft : DD) (fec : Bool) (fe : DD) (ct : DD) (cec : Bool) (ce : DD) :
    cuddAddMinAbstractRecur (DD.node fi ft fec fe) (DD.node fi ct cec ce)
      = cuddAddApplyRecur Cudd_addMinimum (cuddAddMinAbstractRecur ft ct)
          (cuddAddMinAbstractRecur fe ct) := by
  rw [cuddAddMinAbstractRecur.eq_def]
  simp [isConst, levelGt]

lemma minAbs_pass (fi : Nat) (ft : DD) (fec : Bool) (fe : DD)
    (cj : Nat) (ct : DD) (cec : Bool) (ce : DD) (hij : fi < cj) :
    cuddAddMinAbstractRecur (DD.node fi ft fec fe) (DD.node cj ct cec ce)
      = canonicalize fi (cuddAddMinAbstractRecur ft (DD.node cj ct cec ce))
          (cuddAddMinAbstractRecur fe (DD.node cj ct cec ce)) := by
  rw [cuddAddMinAbstractRecur.eq_def]
  have h1 : ¬(cj < fi) := by omega
  have h2 : ¬(fi = cj) := by omega
  simp [isConst, levelGt, h1, h2, mkA_eq_canonicalize]

lemma maxAbs_zero (cube : DD) :
    cuddAddMaxAbstractRecur (DD.leaf 0) cube = DD.leaf 0 := by
  rw [cuddAddMaxAbstractRecur.eq_def]
  simp

lemma maxAbs_constCube (f : DD) (v : Int) :
    cuddAddMaxAbstractRecur f (DD.leaf v) = f := by
  rw [cuddAddMaxAbstractRecur.eq_def]
  simp [isConst]

lemma maxAbs_vacuous (f : DD) (cj : Nat) (ct : DD) (cec : Bool) (ce : DD)
    (hf : f ≠ DD.leaf 0) (hlev : levelGt f cj = true) :
    cuddAddMaxAbstractRecur f (DD.node cj ct cec ce)
      = cuddAddMaxAbstractRecur f ct := by
  rw [cuddAddMaxAbstractRecur.eq_def]
  simp [hf, isConst, hlev]

lemma maxAbs_match (fi : Nat) (ft : DD) (fec : Bool) (fe : DD) (ct : DD) (cec : Bool) (ce : DD) :
    cuddAddMaxAbstractRecur (DD.node fi ft fec fe) (DD.node fi ct cec ce)
      = cuddAddApplyRecur Cudd_addMaximum (cuddAddMaxAbstractRecur ft ct)
          (cuddAddMaxAbstractRecur fe ct) := by
  rw [cuddAddMaxAbstractRecur.eq_def]
  simp [isConst, levelGt]

lemma maxAbs_pass (fi : Nat) (ft : DD) (fec : Bool) (fe : DD)
    (cj : Nat) (ct : DD) (cec : Bool) (ce : DD) (hij : fi < cj) :
    cuddAddMaxAbstractRecur (DD.node fi ft fec fe) (DD.node cj ct cec ce)
      = canonicalize fi (cuddAddMaxAbstractRecur ft (DD.node cj ct cec ce))
          (cuddAddMaxAbstractRecur fe (DD.node cj ct cec ce)) := by
  rw [cuddAddMaxAbstractRecur.eq_def]
  have h1 : ¬(cj < fi) := by omega
  have h2 : ¬(fi = cj) := by omega
  simp [isConst, levelGt, h1, h2, mkA_eq_canonicalize]

/-- C5: for a valid positive cube whose top variable sits strictly earlier
in the order than `f`'s top variable, existential abstraction combines the
sub-result on `(f, tail of C)` with itself under `+`, universal abstraction
combines it with itself under `×`, and disjunctive, min, and max
abstraction return the sub-result on `(f, tail of C)` unchanged, with no
extra combine. -/
theorem claimC5_vacuous_variable (f : DD) (cj : Nat) (ct : DD) (cec : Bool) (ce : DD)
    (hcube : addCheckPositiveCube ⟨false, DD.node cj ct cec ce⟩ = true)
    (hlev : levelGt f cj = true) :
    cuddAddExistAbstractRecur f (DD.node cj ct cec ce)
      = cuddAddApplyRecur Cudd_addPlus (cuddAddExistAbstractRecur f ct)
          (cuddAddExistAbstractRecur f ct)
    ∧ cuddAddUnivAbstractRecur f (DD.node cj ct cec ce)
      = cuddAddApplyRecur Cudd_addTimes (cuddAddUnivAbstractRecur f ct)
          (cuddAddUnivAbstractRecur f ct)
    ∧ cuddAddOrAbstractRecur f (DD.node cj ct cec ce)
      = cuddAddOrAbstractRecur f ct
    ∧ cuddAddMinAbstractRecur f (DD.node cj ct cec ce)
      = cuddAddMinAbstractRecur f ct
    ∧ cuddAddMaxAbstractRecur f (DD.node cj ct cec ce)
      = cuddAddMaxAbstractRecur f ct := by
  refine ⟨?_, ?_, ?_, ?_, ?_⟩
  · by_cases hf : f = DD.leaf 0
    · subst hf
      rw [existAbs_zero, existAbs_zero, cuddAddApplyRecur]
      simp [Cudd_addPlus]
    · exact existAbs_vacuous f cj ct cec ce hf hlev
  · by_cases hf0 : f = DD.leaf 0
    · subst hf0
      rw [cuddAddUnivAbstractRecur.eq_def]
      simp only [eq_self_iff_true, true_or, if_true]
      rw [cuddAddUnivAbstractRecur.eq_def]
      simp only [eq_self_iff_true, true_or, if_true]
      rw [cuddAddApplyRecur]
      simp [Cudd_addTimes]
    · by_cases hf1 : f = DD.leaf 1
      · subst hf1
        rw [cuddAddUnivAbstractRecur.eq_def]
        simp only [eq_self_iff_true, true_or, or_true, if_true]
        rw [cuddAddUnivAbstractRecur.eq_def]
        simp only [eq_self_iff_true, true_or, or_true, if_true]
        rw [cuddAddApplyRecur]
        simp [Cudd_addTimes]
      · exact univAbs_vacuous f cj ct cec ce hf0 hf1 hlev
  · by_cases hf : isConst f = true
    · rw [orAbs_const f _ hf, orAbs_const f ct hf]
    · exact orAbs_vacuous f cj ct cec ce (by simpa using hf) hlev
  · by_cases hf : f = DD.leaf 0
    · subst hf
      rw [minAbs_zero, minAbs_zero]
    · exact minAbs_vacuous f cj ct cec ce hf hlev
  · by_cases hf : f = DD.leaf 0
    · subst hf
      rw [maxAbs_zero, maxAbs_zero]
    · exact maxAbs_vacuous f cj ct cec ce hf hlev

/-- Witness for C5 at `f = ite(x1, 7, 2)`, cube `{x0}`. -/
theorem claimC5_witness :
    (addCheckPositiveCube ⟨false, DD.node 0 (DD.leaf 1) false (DD.leaf 0)⟩ = true
      ∧ levelGt (DD.node 1 (DD.leaf 7) false (DD.leaf 2)) 0 = true)
    ∧ (cuddAddExistAbstractRecur (DD.node 1 (DD.leaf 7) false (DD.leaf 2))
          (DD.node 0 (DD.leaf 1) false (DD.leaf 0))
        = cuddAddApplyRecur Cudd_addPlus
            (cuddAddExistAbstractRecur (DD.node 1 (DD.leaf 7) false (DD.leaf 2)) (DD.leaf 1))
            (cuddAddExistAbstractRecur (DD.node 1 (DD.leaf 7) false (DD.leaf 2)) (DD.leaf 1))
      ∧ cuddAddUnivAbstractRecur (DD.node 1 (DD.leaf 7) false (DD.leaf 2))
          (DD.node 0 (DD.leaf 1) false (DD.leaf 0))
        = cuddAddApplyRecur Cudd_addTimes
            (cuddAddUnivAbstractRecur (DD.node 1 (DD.leaf 7) false (DD.leaf 2)) (DD.leaf 1))
            (cuddAddUnivAbstractRecur (DD.node 1 (DD.leaf 7) false (DD.leaf 2)) (DD.leaf 1))
      ∧ cuddAddOrAbstractRecur (DD.node 1 (DD.leaf 7) false (DD.leaf 2))
          (DD.node 0 (DD.leaf 1) false (DD.leaf 0))
        = cuddAddOrAbstractRecur (DD.node 1 (DD.leaf 7) false (DD.leaf 2)) (DD.leaf 1)
      ∧ cuddAddMinAbstractRecur (DD.node 1 (DD.leaf 7) false (DD.leaf 2))
          (DD.node 0 (DD.leaf 1) false (DD.leaf 0))
        = cuddAddMinAbstractRecur (DD.node 1 (DD.leaf 7) false (DD.leaf 2)) (DD.leaf 1)
      ∧ cuddAddMaxAbstractRecur (DD.node 1 (DD.leaf 7) false (DD.leaf 2))
          (DD.node 0 (DD.leaf 1) false (DD.leaf 0))
        = cuddAddMaxAbstractRecur (DD.node 1 (DD.leaf 7) false (DD.leaf 2)) (DD.leaf 1)) :=
  ⟨⟨by decide, by decide⟩,
   claimC5_vacuous_variable (DD.node 1 (DD.leaf 7) false (DD.leaf 2)) 0
     (DD.leaf 1) false (DD.leaf 0) (by decide) (by decide)⟩

/-- C7: every public abstraction entry point called with a cube that fails
the positive-cube check returns failure immediately, with no handler call
and no retained state; and the check accepts exactly the non-complemented
references that are either the true terminal or a non-terminal whose
else-child is exactly the zero terminal and whose then-child passes
recursively (any other terminal is rejected). -/
theorem claimC7_invalid_cube_rejection (m : DdManager) (f : DD) (p : DdPtr)
    (hp : addCheckPositiveCube p = false) :
    (Cudd_addExistAbstract m f p = (none, 0)
      ∧ Cudd_addUnivAbstract m f p = (none, 0)
      ∧ Cudd_addOrAbstract m f p = (none, 0)
      ∧ Cudd_addMinAbstract m f p = (none, 0)
      ∧ Cudd_addMinExcept0Abstract m f p = (none, 0)
      ∧ Cudd_addMaxAbstract m f p = (none, 0)
      ∧ Cudd_addMinAbstractRepresentative m f p = (none, 0)
      ∧ Cudd_addMaxAbstractRepresentative m f p = (none, 0))
    ∧ ∀ q : DdPtr,
        addCheckPositiveCube q = true ↔ (q.c = false ∧ specPositiveCube q.n = true) := by
  constructor
  · refine ⟨?_, ?_, ?_, ?_, ?_, ?_, ?_, ?_⟩ <;>
      simp [Cudd_addExistAbstract, Cudd_addUnivAbstract, Cudd_addOrAbstract,
        Cudd_addMinAbstract, Cudd_addMinExcept0Abstract, Cudd_addMaxAbstract,
        Cudd_addMinAbstractRepresentative, Cudd_addMaxAbstractRepresentative, hp]
  · intro q
    have hrec : ∀ n : DD, addCheckPositiveCubeRecur n = specPositiveCube n := by
      intro n
      induction n with
      | leaf v => rfl
      | node i t ec e iht ihe =>
          cases ec <;> simp [addCheckPositiveCubeRecur, specPositiveCube, iht]
    unfold addCheckPositiveCube
    cases hq : q.c <;> simp [hq, hrec]

/-- Witness for C7 at the complemented reference to the one terminal. -/
theorem claimC7_witness :
    addCheckPositiveCube ⟨true, DD.leaf 1⟩ = false
    ∧ ((Cudd_addExistAbstract ⟨false, false⟩ (DD.leaf 0) ⟨true, DD.leaf 1⟩ = (none, 0)
      ∧ Cudd_addUnivAbstract ⟨false, false⟩ (DD.leaf 0) ⟨true, DD.leaf 1⟩ = (none, 0)
      ∧ Cudd_addOrAbstract ⟨false, false⟩ (DD.leaf 0) ⟨true, DD.leaf 1⟩ = (none, 0)
      ∧ Cudd_addMinAbstract ⟨false, false⟩ (DD.leaf 0) ⟨true, DD.leaf 1⟩ = (none, 0)
      ∧ Cudd_addMinExcept0Abstract ⟨false, false⟩ (DD.leaf 0) ⟨true, DD.leaf 1⟩ = (none, 0)
      ∧ Cudd_addMaxAbstract ⟨false, false⟩ (DD.leaf 0) ⟨true, DD.leaf 1⟩ = (none, 0)
      ∧ Cudd_addMinAbstractRepresentative ⟨false, false⟩ (DD.leaf 0) ⟨true, DD.leaf 1⟩
          = (none, 0)
      ∧ Cudd_addMaxAbstractRepresentative ⟨false, false⟩ (DD.leaf 0) ⟨true, DD.leaf 1⟩
          = (none, 0))
      ∧ ∀ q : DdPtr,
          addCheckPositiveCube q = true ↔ (q.c = false ∧ specPositiveCube q.n = true)) :=
  ⟨by decide,
   claimC7_invalid_cube_rejection ⟨false, false⟩ (DD.leaf 0) ⟨true, DD.leaf 1⟩ (by decide)⟩

/-- C3 (claim as stated is refuted here): with the deadline fired and a
timeout handler configured, the `Cudd_addMinAbstract` entry point returns
no result but invokes the handler zero times, not exactly once. -/
theorem claimC3_counterexample :
    Cudd_addMinAbstract ⟨true, true⟩ (DD.leaf 0) ⟨false, DD.leaf 1⟩ = (none, 0)
    ∧ (0 : Nat) ≠ 1 := by
  constructor
  · rw [Cudd_addMinAbstract]
    simp [addCheckPositiveCube, addCheckPositiveCubeRecur]
  · decide

/-- C3 (amended): when the deadline has fired during a call on a valid
cube and a handler is configured, every entry point reports no result, but
only `Cudd_addExistAbstract`, `Cudd_addUnivAbstract` and
`Cudd_addOrAbstract` invoke the configured timeout handler (exactly once);
the min, except-0 min, max and the two representative entry points never
invoke it. -/
theorem claimC3_timeout_handler (m : DdManager) (f : DD) (p : DdPtr)
    (hp : addCheckPositiveCube p = true) (hto : m.timeoutExpired = true)
    (hh : m.hasTimeoutHandler = true) :
    Cudd_addExistAbstract m f p = (none, 1)
    ∧ Cudd_addUnivAbstract m f p = (none, 1)
    ∧ Cudd_addOrAbstract m f p = (none, 1)
    ∧ Cudd_addMinAbstract m f p = (none, 0)
    ∧ Cudd_addMinExcept0Abstract m f p = (none, 0)
    ∧ Cudd_addMaxAbstract m f p = (none, 0)
    ∧ Cudd_addMinAbstractRepresentative m f p = (none, 0)
    ∧ Cudd_addMaxAbstractRepresentative m f p = (none, 0) := by
  refine ⟨?_, ?_, ?_, ?_, ?_, ?_, ?_, ?_⟩ <;>
    simp [Cudd_addExistAbstract, Cudd_addUnivAbstract, Cudd_addOrAbstract,
      Cudd_addMinAbstract, Cudd_addMinExcept0Abstract, Cudd_addMaxAbstract,
      Cudd_addMinAbstractRepresentative, Cudd_addMaxAbstractRepresentative,
      hp, hto, hh]

/-- Witness for C3 (amended) at the empty cube. -/
theorem claimC3_witness :
    (addCheckPositiveCube ⟨false, DD.leaf 1⟩ = true
      ∧ (true : Bool) = true ∧ (true : Bool) = true)
    ∧ (Cudd_addExistAbstract ⟨true, true⟩ (DD.leaf 0) ⟨false, DD.leaf 1⟩ = (none, 1)
      ∧ Cudd_addUnivAbstract ⟨true, true⟩ (DD.leaf 0) ⟨false, DD.leaf 1⟩ = (none, 1)
      ∧ Cudd_addOrAbstract ⟨true, true⟩ (DD.leaf 0) ⟨false, DD.leaf 1⟩ = (none, 1)
      ∧ Cudd_addMinAbstract ⟨true, true⟩ (DD.leaf 0) ⟨false, DD.leaf 1⟩ = (none, 0)
      ∧ Cudd_addMinExcept0Abstract ⟨true, true⟩ (DD.leaf 0) ⟨false, DD.leaf 1⟩ = (none, 0)
      ∧ Cudd_addMaxAbstract ⟨true, true⟩ (DD.leaf 0) ⟨false, DD.leaf 1⟩ = (none, 0)
      ∧ Cudd_addMinAbstractRepresentative ⟨true, true⟩ (DD.leaf 0) ⟨false, DD.leaf 1⟩
          = (none, 0)
      ∧ Cudd_addMaxAbstractRepresentative ⟨true, true⟩ (DD.leaf 0) ⟨false, DD.leaf 1⟩
          = (none, 0)) :=
  ⟨⟨by decide, rfl, rfl⟩,
   claimC3_timeout_handler ⟨true, true⟩ (DD.leaf 0) ⟨false, DD.leaf 1⟩
     (by decide) rfl rfl⟩

/-- C10: the except-0 min abstraction delegates to the plain min
abstraction below the top level.  When the cube's top variable precedes
`f`'s top variable the recursion returns exactly the plain min abstraction
of `f` over the cube's tail; and in the matching case both cofactors are
abstracted by the plain min recursion, with the except-0 combinator applied
only to combine the two sub-results at that outermost shared variable. -/
theorem claimC10_minExcept0_delegates (f : DD) (cj : Nat) (ct : DD) (cec : Bool) (ce : DD)
    (i : Nat) (ft : DD) (fec : Bool) (fe : DD) (d1 : DD) (db : Bool) (d2 : DD)
    (hcube1 : addCheckPositiveCube ⟨false, DD.node cj ct cec ce⟩ = true)
    (hcube2 : addCheckPositiveCube ⟨false, DD.node i d1 db d2⟩ = true)
    (hlev : levelGt f cj = true) :
    cuddAddMinExcept0AbstractRecur f (DD.node cj ct cec ce)
      = cuddAddMinAbstractRecur f ct
    ∧ cuddAddMinExcept0AbstractRecur (DD.node i ft fec fe) (DD.node i d1 db d2)
      = cuddAddApplyRecur Cudd_addMinimumExcept0 (cuddAddMinAbstractRecur ft d1)
          (cuddAddMinAbstractRecur fe d1) := by
  constructor
  · by_cases hf : f = DD.leaf 0
    · subst hf
      unfold cuddAddMinExcept0AbstractRecur
      rw [minAbs_zero]
      simp
    · unfold cuddAddMinExcept0AbstractRecur
      simp [hf, isConst, hlev]
  · unfold cuddAddMinExcept0AbstractRecur
    simp [isConst, levelGt]

/-- Witness for C10 at `f = ite(x1, 0, 5)`, cubes `{x0}` and `{x1}`. -/
theorem claimC10_witness :
    (addCheckPositiveCube ⟨false, DD.node 0 (DD.leaf 1) false (DD.leaf 0)⟩ = true
      ∧ addCheckPositiveCube ⟨false, DD.node 1 (DD.leaf 1) false (DD.leaf 0)⟩ = true
      ∧ levelGt (DD.node 1 (DD.leaf 0) false (DD.leaf 5)) 0 = true)
    ∧ (cuddAddMinExcept0AbstractRecur (DD.node 1 (DD.leaf 0) false (DD.leaf 5))
          (DD.node 0 (DD.leaf 1) false (DD.leaf 0))
        = cuddAddMinAbstractRecur (DD.node 1 (DD.leaf 0) false (DD.leaf 5)) (DD.leaf 1)
      ∧ cuddAddMinExcept0AbstractRecur (DD.node 1 (DD.leaf 0) false (DD.leaf 5))
          (DD.node 1 (DD.leaf 1) false (DD.leaf 0))
        = cuddAddApplyRecur Cudd_addMinimumExcept0
            (cuddAddMinAbstractRecur (DD.leaf 0) (DD.leaf 1))
            (cuddAddMinAbstractRecur (DD.leaf 5) (DD.leaf 1))) :=
  ⟨⟨by decide, by decide, by decide⟩,
   claimC10_minExcept0_delegates (DD.node 1 (DD.leaf 0) false (DD.leaf 5))
     0 (DD.leaf 1) false (DD.leaf 0) 1 (DD.leaf 0) false (DD.leaf 5)
     (DD.leaf 1) false (DD.leaf 0) (by decide) (by decide) (by decide)⟩

/-- C4 (refuted by the code): the except-0 min abstraction keys its cache
entries under the plain min abstraction's operator id, so the two
operators' entries alias.  Concretely, for `f = ite(x0, 0, 5)` and cube
`{x0}`: a preceding plain-min call caches `0` under the shared key, a
subsequent except-0 call returns that stale `0`, while on a cold cache the
same call returns `5`; the two cache-transparent operators genuinely
differ at this input. -/
theorem claimC4_cache_alias :
    (cuddAddMinExcept0AbstractRecurWithCache
        (DD.node 0 (DD.leaf 0) false (DD.leaf 5)) (DD.node 0 (DD.leaf 1) false (DD.leaf 0))
        (cuddAddMinAbstractRecurWithCache (DD.node 0 (DD.leaf 0) false (DD.leaf 5))
          (DD.node 0 (DD.leaf 1) false (DD.leaf 0)) []).2).1 = DD.leaf 0
    ∧ (cuddAddMinExcept0AbstractRecurWithCache
        (DD.node 0 (DD.leaf 0) false (DD.leaf 5)) (DD.node 0 (DD.leaf 1) false (DD.leaf 0))
        []).1 = DD.leaf 5
    ∧ cuddAddMinAbstractRecur (DD.node 0 (DD.leaf 0) false (DD.leaf 5))
        (DD.node 0 (DD.leaf 1) false (DD.leaf 0)) = DD.leaf 0
    ∧ cuddAddMinExcept0AbstractRecur (DD.node 0 (DD.leaf 0) false (DD.leaf 5))
        (DD.node 0 (DD.leaf 1) false (DD.leaf 0)) = DD.leaf 5
    ∧ (DD.leaf 0 : DD) ≠ DD.leaf 5 := by
  refine ⟨?_, ?_, ?_, ?_, by simp⟩
  · simp [cuddAddMinAbstractRecurWithCache, cuddAddMinExcept0AbstractRecurWithCache,
      cacheLookup, cacheInsert, isConst, levelGt, cuddAddApplyRecur, Cudd_addMinimum,
      Cudd_addMinimumExcept0]
  · simp [cuddAddMinAbstractRecurWithCache, cuddAddMinExcept0AbstractRecurWithCache,
      cacheLookup, cacheInsert, isConst, levelGt, cuddAddApplyRecur, Cudd_addMinimum,
      Cudd_addMinimumExcept0]
  · rw [minAbs_match, minAbs_constCube, minAbs_constCube, cuddAddApplyRecur]
    simp [Cudd_addMinimum]
  · unfold cuddAddMinExcept0AbstractRecur
    simp [isConst, levelGt]
    rw [minAbs_constCube, minAbs_constCube, cuddAddApplyRecur]
    simp [Cudd_addMinimumExcept0]

/-- C1 (refuted by the code for the min extractor): for
`f = ite(x0, ite(x1, 0, 1), ite(x1, 5, 3))` and cube `{x1}` the min
representative extractor returns the selector `x1` — its pass-through case
negates the else-branch sub-result unconditionally (cuddAddAbs.c:1148) —
so at the assignment `x0 = false, x1 = true`, which the selector accepts,
`f` evaluates to `5` while the plain min abstraction evaluates to `3`. -/
theorem claimC1_minRep_unsound_eval :
    addCheckPositiveCube ⟨false, DD.node 1 (DD.leaf 1) false (DD.leaf 0)⟩ = true
    ∧ cuddAddMinAbstractRepresentativeRecur
        (DD.node 0 (DD.node 1 (DD.leaf 0) false (DD.leaf 1))
          false (DD.node 1 (DD.leaf 5) false (DD.leaf 3)))
        (DD.node 1 (DD.leaf 1) false (DD.leaf 0))
      = ⟨false, DD.node 1 (DD.leaf 1) true (DD.leaf 1)⟩
    ∧ evalB ⟨false, DD.node 1 (DD.leaf 1) true (DD.leaf 1)⟩ (fun n => decide (n = 1)) = true
    ∧ evalA (DD.node 0 (DD.node 1 (DD.leaf 0) false (DD.leaf 1))
          false (DD.node 1 (DD.leaf 5) false (DD.leaf 3))) (fun n => decide (n = 1)) = 5
    ∧ evalA (cuddAddMinAbstractRecur
          (DD.node 0 (DD.node 1 (DD.leaf 0) false (DD.leaf 1))
            false (DD.node 1 (DD.leaf 5) false (DD.leaf 3)))
          (DD.node 1 (DD.leaf 1) false (DD.leaf 0)))
        (fun n => decide (n = 1)) = 3 := by
  refine ⟨by decide, ?_, by decide, by decide, ?_⟩
  · simp [cuddAddMinAbstractRepresentativeRecur, cuddAddMinAbstractRecur,
      cuddAddToBddApplyRecur, cuddBddIteRecur, bddApply, repBuild, repForceFalse,
      cuddUniqueInter, mkBddNode, Cudd_Not, oneBddP, logicalZeroP, levelGt, isConst,
      Cudd_addToBddLessThanEquals, Cudd_addMinimum, cuddAddApplyRecur, canonicalize]
  · rw [minAbs_pass]
    · rw [minAbs_match, minAbs_match, minAbs_constCube, minAbs_constCube,
        minAbs_constCube, minAbs_constCube, cuddAddApplyRecur, cuddAddApplyRecur]
      simp [Cudd_addMinimum, canonicalize, evalA]
    · decide

lemma minmax_dual_aux : ∀ (n : Nat) (f cube : DD), sizeOf f + sizeOf cube ≤ n →
    cuddAddMinAbstractRecur f cube
      = Cudd_addNegate (cuddAddMaxAbstractRecur (Cudd_addNegate f) cube) := by
  intro n
  induction n with
  | zero => intro f cube h; exact absurd h (by cases f <;> simp)
  | succ n ih =>
      intro f cube hsz
      by_cases hf : f = DD.leaf 0
      · subst hf
        have hneg : Cudd_addNegate (DD.leaf 0) = DD.leaf 0 := by
          simp [Cudd_addNegate]
        rw [minAbs_zero, hneg, maxAbs_zero, hneg]
      · cases cube with
  | leaf w =>
      rw [minAbs_constCube, maxAbs_constCube, cuddAddNegate_involutive]
  | node cj ct cec ce =>
      have hf2 : Cudd_addNegate f ≠ DD.leaf 0 := fun hc =>
        hf ((cuddAddNegate_eq_zero f).mp hc)
      have hszc : sizeOf ct < sizeOf (DD.node cj ct cec ce) := by
        simp; try omega
      by_cases hlev : levelGt f cj = true
      · rw [minAbs_vacuous f cj ct cec ce hf hlev,
          maxAbs_vacuous (Cudd_addNegate f) cj ct cec ce hf2
            (by rw [levelGt_cuddAddNegate]; exact hlev)]
        exact ih f ct (by omega)
      · cases f with
  | leaf v => exact absurd (rfl : levelGt (DD.leaf v) cj = true) hlev
  | node fi ft fec fe =>
      have hszt : sizeOf ft < sizeOf (DD.node fi ft fec fe) := by simp; try omega
      have hsze : sizeOf fe < sizeOf (DD.node fi ft fec fe) := by simp; try omega
      have hng : Cudd_addNegate (DD.node fi ft fec fe)
          = DD.node fi (Cudd_addNegate ft) fec (Cudd_addNegate fe) := rfl
      by_cases hij : fi = cj
      · subst hij
        rw [minAbs_match, hng, maxAbs_match,
          cuddAddNegate_apply Cudd_addMaximum Cudd_addMinimum
            (fun a b => by simp [Cudd_addMaximum, Cudd_addMinimum, min_neg_neg]),
          ← ih ft ct (by omega), ← ih fe ct (by omega)]
      · have hij2 : fi < cj := by
          simp [levelGt] at hlev
          omega
        rw [minAbs_pass fi ft fec fe cj ct cec ce hij2, hng,
          maxAbs_pass fi (Cudd_addNegate ft) fec (Cudd_addNegate fe) cj ct cec ce hij2,
          cuddAddNegate_canonicalize,
          ← ih ft (DD.node cj ct cec ce) (by omega),
          ← ih fe (DD.node cj ct cec ce) (by omega)]

/-- C8: for every ADD `f` and cube `C`, the min abstraction of `f` over `C`
is the leaf-wise negation of the max abstraction of the leaf-wise negation
of `f` over `C` (integer leaf negation is total). -/
theorem claimC8_minmax_duality (f cube : DD) :
    cuddAddMinAbstractRecur f cube
      = Cudd_addNegate (cuddAddMaxAbstractRecur (Cudd_addNegate f) cube) :=
  minmax_dual_aux (sizeOf f + sizeOf cube) f cube le_rfl

/-- Every variable occurring in the diagram is strictly below `m`: the
diagram is over the variable set `{0, ..., m-1}`. -/
def allVarsLt (m : Nat) : DD → Bool
  | .leaf _ => true
  | .node i t _ e => decide (i < m) && allVarsLt m t && allVarsLt m e

lemma existAbs_constCube (f : DD) (v : Int) :
    cuddAddExistAbstractRecur f (DD.leaf v) = f := by
  rw [cuddAddExistAbstractRecur.eq_def]
  simp [isConst]

/-- C6: for an ordered ADD `f` over the variables `{x0, x1}`, existentially
abstracting the cube `{x0}` yields the pointwise sum of the two cofactors
of `f` with respect to `x0`, and matches the brute-force sum over both
values of `x0` at every assignment. -/
theorem claimC6_additivity (f : DD) (env : Nat → Bool)
    (ho : ordered f = true) (hvars : allVarsLt 2 f = true) :
    cuddAddExistAbstractRecur f (DD.node 0 (DD.leaf 1) false (DD.leaf 0))
      = cuddAddApplyRecur Cudd_addPlus (cofactor f 0 false) (cofactor f 0 true)
    ∧ evalA (cuddAddExistAbstractRecur f (DD.node 0 (DD.leaf 1) false (DD.leaf 0))) env
      = evalA f (fun m => if m = 0 then false else env m)
        + evalA f (fun m => if m = 0 then true else env m) := by
  have hmain : cuddAddExistAbstractRecur f (DD.node 0 (DD.leaf 1) false (DD.leaf 0))
      = cuddAddApplyRecur Cudd_addPlus (cofactor f 0 false) (cofactor f 0 true) := by
    cases f with
    | leaf v =>
        by_cases hv : v = 0
        · subst hv
          rw [existAbs_zero, cofactor, cofactor, cuddAddApplyRecur]
          simp [Cudd_addPlus]
        · rw [existAbs_vacuous (DD.leaf v) 0 (DD.leaf 1) false (DD.leaf 0)
            (by simp [hv]) rfl, existAbs_constCube, cofactor, cofactor]
    | node fi ft fec fe =>
        by_cases hfi : fi = 0
        · subst hfi
          rw [existAbs_match, existAbs_constCube, existAbs_constCube]
          have hc0 : cofactor (DD.node 0 ft fec fe) 0 false = fe := by
            simp [cofactor]
          have hc1 : cofactor (DD.node 0 ft fec fe) 0 true = ft := by
            simp [cofactor]
          rw [hc0, hc1]
          exact cuddAddApplyRecur_comm Cudd_addPlus
            (fun a b => by simp [Cudd_addPlus]; omega) ft fe
        · have hlev : levelGt (DD.node fi ft fec fe) 0 = true := by
            simp [levelGt]
            omega
          have hgt : allVarsGt 0 (DD.node fi ft fec fe) = true :=
            allVarsGt_of_ordered (DD.node fi ft fec fe) 0 ho hlev
          rw [existAbs_vacuous (DD.node fi ft fec fe) 0 (DD.leaf 1) false (DD.leaf 0)
            (by simp) hlev, existAbs_constCube,
            cofactor_indep 0 false (DD.node fi ft fec fe) hgt,
            cofactor_indep 0 true (DD.node fi ft fec fe) hgt]
  refine ⟨hmain, ?_⟩
  rw [hmain, evalA_cuddAddApplyRecur, evalA_cofactor 0 false f env ho,
    evalA_cofactor 0 true f env ho]
  rfl

/-- Witness for C6 at `f = ite(x0, ite(x1, 1, 2), 3)` and the
all-false assignment. -/
theorem claimC6_witness :
    (ordered (DD.node 0 (DD.node 1 (DD.leaf 1) false (DD.leaf 2)) false (DD.leaf 3)) = true
      ∧ allVarsLt 2 (DD.node 0 (DD.node 1 (DD.leaf 1) false (DD.leaf 2)) false (DD.leaf 3))
          = true)
    ∧ (cuddAddExistAbstractRecur
          (DD.node 0 (DD.node 1 (DD.leaf 1) false (DD.leaf 2)) false (DD.leaf 3))
          (DD.node 0 (DD.leaf 1) false (DD.leaf 0))
        = cuddAddApplyRecur Cudd_addPlus
            (cofactor (DD.node 0 (DD.node 1 (DD.leaf 1) false (DD.leaf 2)) false (DD.leaf 3))
              0 false)
            (cofactor (DD.node 0 (DD.node 1 (DD.leaf 1) false (DD.leaf 2)) false (DD.leaf 3))
              0 true)
      ∧ evalA (cuddAddExistAbstractRecur
            (DD.node 0 (DD.node 1 (DD.leaf 1) false (DD.leaf 2)) false (DD.leaf 3))
            (DD.node 0 (DD.leaf 1) false (DD.leaf 0))) (fun _ => false)
        = evalA (DD.node 0 (DD.node 1 (DD.leaf 1) false (DD.leaf 2)) false (DD.leaf 3))
            (fun m => if m = 0 then false else (fun _ => false) m)
          + evalA (DD.node 0 (DD.node 1 (DD.leaf 1) false (DD.leaf 2)) false (DD.leaf 3))
            (fun m => if m = 0 then true else (fun _ => false) m)) :=
  ⟨⟨by decide, by decide⟩,
   claimC6_additivity (DD.node 0 (DD.node 1 (DD.leaf 1) false (DD.leaf 2)) false (DD.leaf 3))
     (fun _ => false) (by decide) (by decide)⟩

lemma minRep_vacuous (f : DD) (cj : Nat) (ct : DD) (cec : Bool) (ce : DD)
    (hlev : levelGt f cj = true) :
    cuddAddMinAbstractRepresentativeRecur f (DD.node cj ct cec ce)
      = repForceFalse cj (cuddAddMinAbstractRepresentativeRecur f ct) := by
  cases f with
  | leaf v => rw [cuddAddMinAbstractRepresentativeRecur.eq_def]
  | node fi ft fec fe =>
      rw [cuddAddMinAbstractRepresentativeRecur.eq_def]
      simp [hlev]

lemma maxRep_vacuous (f : DD) (cj : Nat) (ct : DD) (cec : Bool) (ce : DD)
    (hlev : levelGt f cj = true) :
    cuddAddMaxAbstractRepresentativeRecur f (DD.node cj ct cec ce)
      = repForceFalse cj (cuddAddMaxAbstractRepresentativeRecur f ct) := by
  cases f with
  | leaf v => rw [cuddAddMaxAbstractRepresentativeRecur.eq_def]
  | node fi ft fec fe =>
      rw [cuddAddMaxAbstractRepresentativeRecur.eq_def]
      simp [hlev]

lemma minRep_match (i : Nat) (ft : DD) (fec : Bool) (fe : DD)
    (ct : DD) (cec : Bool) (ce : DD) :
    cuddAddMinAbstractRepresentativeRecur (DD.node i ft fec fe) (DD.node i ct cec ce)
      = repBuild i
          (cuddBddIteRecur
            (cuddAddToBddApplyRecur Cudd_addToBddLessThanEquals
              (cuddAddMinAbstractRecur fe ct) (cuddAddMinAbstractRecur ft ct))
            (cuddAddMinAbstractRepresentativeRecur fe ct) logicalZeroP)
          (cuddBddIteRecur
            (Cudd_Not (cuddAddToBddApplyRecur Cudd_addToBddLessThanEquals
              (cuddAddMinAbstractRecur fe ct) (cuddAddMinAbstractRecur ft ct)))
            (cuddAddMinAbstractRepresentativeRecur ft ct) logicalZeroP) := by
  rw [cuddAddMinAbstractRepresentativeRecur.eq_def]
  simp [levelGt]

lemma maxRep_match (i : Nat) (ft : DD) (fec : Bool) (fe : DD)
    (ct : DD) (cec : Bool) (ce : DD) :
    cuddAddMaxAbstractRepresentativeRecur (DD.node i ft fec fe) (DD.node i ct cec ce)
      = repBuild i
          (cuddBddIteRecur
            (cuddAddToBddApplyRecur Cudd_addToBddGreaterThanEquals
              (cuddAddMaxAbstractRecur fe ct) (cuddAddMaxAbstractRecur ft ct))
            (cuddAddMaxAbstractRepresentativeRecur fe ct) logicalZeroP)
          (cuddBddIteRecur
            (Cudd_Not (cuddAddToBddApplyRecur Cudd_addToBddGreaterThanEquals
              (cuddAddMaxAbstractRecur fe ct) (cuddAddMaxAbstractRecur ft ct)))
            (cuddAddMaxAbstractRepresentativeRecur ft ct) logicalZeroP) := by
  rw [cuddAddMaxAbstractRepresentativeRecur.eq_def]
  simp [levelGt]

lemma evalB_rep_match_build (i : Nat) (tmp rA rB : DdPtr) (env : Nat → Bool) :
    evalB (repBuild i (cuddBddIteRecur tmp rA logicalZeroP)
        (cuddBddIteRecur (Cudd_Not tmp) rB logicalZeroP)) env
      = if evalB tmp env then (!env i && evalB rA env)
        else (env i && evalB rB env) := by
  have hP : evalB (cuddBddIteRecur tmp rA logicalZeroP) env
      = (evalB tmp env && evalB rA env) := by
    rw [evalB_cuddBddIteRecur]
    cases h : evalB tmp env <;> simp [h, evalB_logicalZeroP]
  have hQ : evalB (cuddBddIteRecur (Cudd_Not tmp) rB logicalZeroP) env
      = (!evalB tmp env && evalB rB env) := by
    rw [evalB_cuddBddIteRecur, evalB_Cudd_Not]
    cases h : evalB tmp env <;> simp [h, evalB_logicalZeroP]
  rw [evalB_repBuild]
  by_cases hpq : cuddBddIteRecur tmp rA logicalZeroP
      = cuddBddIteRecur (Cudd_Not tmp) rB logicalZeroP
  · have heq : evalB (cuddBddIteRecur tmp rA logicalZeroP) env
        = evalB (cuddBddIteRecur (Cudd_Not tmp) rB logicalZeroP) env := by
      rw [hpq]
    rw [hP, hQ] at heq
    simp only [if_pos hpq, hP]
    cases h : evalB tmp env
    · rw [h] at heq
      simp at heq
      simp [heq, h]
    · rw [h] at heq
      simp [h]
  · simp only [if_neg hpq, hP, hQ]
    cases h : evalB tmp env <;> cases he : env i <;> simp [h, he]

/-- C9: at the matching case the min (resp. max) representative extractor
compares the cofactors' plain extremal values with `<=` (resp. `>=`),
following the else-branch's representative with the variable set to false
where the else-cofactor's value is weakly better (so ties go to the
else-branch), and the then-branch's representative with the variable set to
true otherwise; and at the vacuous-variable case (the cube's top variable
earlier than `f`'s) the representative forces the newly-irrelevant cube
variable to false. -/
theorem claimC9_representative_choice
    (i : Nat) (ft : DD) (fec : Bool) (fe : DD) (ct : DD) (cec : Bool) (ce : DD)
    (g : DD) (cj : Nat) (d1 : DD) (db : Bool) (d2 : DD) (env : Nat → Bool)
    (hcube1 : addCheckPositiveCube ⟨false, DD.node i ct cec ce⟩ = true)
    (hcube2 : addCheckPositiveCube ⟨false, DD.node cj d1 db d2⟩ = true)
    (hlev : levelGt g cj = true) :
    (evalB (cuddAddMinAbstractRepresentativeRecur (DD.node i ft fec fe)
        (DD.node i ct cec ce)) env
      = if evalA (cuddAddMinAbstractRecur fe ct) env
            ≤ evalA (cuddAddMinAbstractRecur ft ct) env
        then (!env i && evalB (cuddAddMinAbstractRepresentativeRecur fe ct) env)
        else (env i && evalB (cuddAddMinAbstractRepresentativeRecur ft ct) env))
    ∧ (evalB (cuddAddMaxAbstractRepresentativeRecur (DD.node i ft fec fe)
        (DD.node i ct cec ce)) env
      = if evalA (cuddAddMaxAbstractRecur ft ct) env
            ≤ evalA (cuddAddMaxAbstractRecur fe ct) env
        then (!env i && evalB (cuddAddMaxAbstractRepresentativeRecur fe ct) env)
        else (env i && evalB (cuddAddMaxAbstractRepresentativeRecur ft ct) env))
    ∧ (evalB (cuddAddMinAbstractRepresentativeRecur g (DD.node cj d1 db d2)) env
      = (!env cj && evalB (cuddAddMinAbstractRepresentativeRecur g d1) env))
    ∧ (evalB (cuddAddMaxAbstractRepresentativeRecur g (DD.node cj d1 db d2)) env
      = (!env cj && evalB (cuddAddMaxAbstractRepresentativeRecur g d1) env)) := by
  refine ⟨?_, ?_, ?_, ?_⟩
  · rw [minRep_match, evalB_rep_match_build, evalB_cuddAddToBddApplyRecur]
    simp [Cudd_addToBddLessThanEquals]
  · rw [maxRep_match, evalB_rep_match_build, evalB_cuddAddToBddApplyRecur]
    simp [Cudd_addToBddGreaterThanEquals]
  · rw [minRep_vacuous g cj d1 db d2 hlev, evalB_repForceFalse]
  · rw [maxRep_vacuous g cj d1 db d2 hlev, evalB_repForceFalse]

/-- Witness for C9 at `f = ite(x0, 1, 2)` with cube `{x0}`, `g = 5` with
cube `{x0}`, and the all-false assignment. -/
theorem claimC9_witness :
    (addCheckPositiveCube ⟨false, DD.node 0 (DD.leaf 1) false (DD.leaf 0)⟩ = true
      ∧ addCheckPositiveCube ⟨false, DD.node 0 (DD.leaf 1) false (DD.leaf 0)⟩ = true
      ∧ levelGt (DD.leaf 5) 0 = true)
    ∧ ((evalB (cuddAddMinAbstractRepresentativeRecur
          (DD.node 0 (DD.leaf 1) false (DD.leaf 2)) (DD.node 0 (DD.leaf 1) false (DD.leaf 0)))
          (fun _ => false)
        = if evalA (cuddAddMinAbstractRecur (DD.leaf 2) (DD.leaf 1)) (fun _ => false)
              ≤ evalA (cuddAddMinAbstractRecur (DD.leaf 1) (DD.leaf 1)) (fun _ => false)
          then (!(fun _ => false : Nat → Bool) 0
                && evalB (cuddAddMinAbstractRepresentativeRecur (DD.leaf 2) (DD.leaf 1))
                    (fun _ => false))
          else ((fun _ => false : Nat → Bool) 0
                && evalB (cuddAddMinAbstractRepresentativeRecur (DD.leaf 1) (DD.leaf 1))
                    (fun _ => false)))
      ∧ (evalB (cuddAddMaxAbstractRepresentativeRecur
          (DD.node 0 (DD.leaf 1) false (DD.leaf 2)) (DD.node 0 (DD.leaf 1) false (DD.leaf 0)))
          (fun _ => false)
        = if evalA (cuddAddMaxAbstractRecur (DD.leaf 1) (DD.leaf 1)) (fun _ => false)
              ≤ evalA (cuddAddMaxAbstractRecur (DD.leaf 2) (DD.leaf 1)) (fun _ => false)
          then (!(fun _ => false : Nat → Bool) 0
                && evalB (cuddAddMaxAbstractRepresentativeRecur (DD.leaf 2) (DD.leaf 1))
                    (fun _ => false))
          else ((fun _ => false : Nat → Bool) 0
                && evalB (cuddAddMaxAbstractRepresentativeRecur (DD.leaf 1) (DD.leaf 1))
                    (fun _ => false)))
      ∧ (evalB (cuddAddMinAbstractRepresentativeRecur (DD.leaf 5)
            (DD.node 0 (DD.leaf 1) false (DD.leaf 0))) (fun _ => false)
        = (!(fun _ => false : Nat → Bool) 0
            && evalB (cuddAddMinAbstractRepresentativeRecur (DD.leaf 5) (DD.leaf 1))
                (fun _ => false)))
      ∧ (evalB (cuddAddMaxAbstractRepresentativeRecur (DD.leaf 5)
            (DD.node 0 (DD.leaf 1) false (DD.leaf 0))) (fun _ => false)
        = (!(fun _ => false : Nat → Bool) 0
            && evalB (cuddAddMaxAbstractRepresentativeRecur (DD.leaf 5) (DD.leaf 1))
                (fun _ => false)))) :=
  ⟨⟨by decide, by decide, by decide⟩,
   claimC9_representative_choice 0 (DD.leaf 1) false (DD.leaf 2) (DD.leaf 1) false (DD.leaf 0)
     (DD.leaf 5) 0 (DD.leaf 1) false (DD.leaf 0) (fun _ => false)
     (by decide) (by decide) (by decide)⟩
